import Mathlib

/-!
Verification development for the lr-mig2 file scanner (src/file_scanner.py,
src/config.py, src/scan_cli.py).

Shallow embedding conventions:
* Filesystem paths are modelled as lists of path components (`List String`);
  joining a directory with an entry name appends one component, the basename
  is the last component and the parent is `List.dropLast`.  This mirrors the
  POSIX path strings the Python code manipulates via `os.path` and `pathlib`.
* The directory tree handed to `os.walk` is modelled by the rose tree
  `FSTree`; `os.walk(top)` with `topdown=True` yields the root first and then
  each subtree in order, and clearing `dirnames` prunes the subtree, which is
  exactly the recursion implemented by `visitTree` and `visitForest` below.
* Database effects (PostgreSQL inserts and lookups) become explicit state in
  `DB`; exceptions raised by the database or by `os.stat` are modelled by
  oracles in `Env` returning `some errorKind`.
* Wall-clock timing fields of the Python `PerformanceTracker` are not
  modelled (real time); only its counters are, which is what the claims
  mention.
-/

/-- SUPPORTED_RAW_FORMATS from src/config.py: extensions without leading
dots, compared after lower-casing. -/
def SUPPORTED_RAW_FORMATS : List String :=
  ["dng", "arw", "cr2", "cr3", "nef", "raf", "orf", "rw2", "srw", "x3f",
   "jpg", "jpeg",
   "tif", "tiff",
   "png", "bmp"]

/-- EXCLUDED_DIRS from src/config.py: glob patterns for directory basenames. -/
def EXCLUDED_DIRS : List String :=
  ["*StarQ*",
   "$RECYCLE.BIN*",
   "System Volume Information*",
   "RECYCLER*",
   ".Trash*",
   ".DS_Store*",
   "Thumbs.db*",
   "desktop.ini*",
   ".git*",
   "__pycache__*",
   "node_modules*",
   ".svn*",
   ".hg*"]

/-- Glob matching worker for the pattern language actually used by
EXCLUDED_DIRS (literal characters, the any-sequence wildcard and the
single-character wildcard; no character classes appear in the pattern list).
The fuel argument makes the recursion structural so that concrete instances
reduce in the kernel; `globMatch` supplies enough fuel, since every recursive
call strictly decreases the combined length of pattern and subject. -/
def globMatchAux : Nat → List Char → List Char → Bool
  | _, [], s => s.isEmpty
  | 0, _ :: _, _ => false
  | f + 1, '*' :: ps, s =>
      globMatchAux f ps s ||
        (match s with
         | [] => false
         | _ :: s2 => globMatchAux f ('*' :: ps) s2)
  | f + 1, '?' :: ps, s =>
      (match s with
       | [] => false
       | _ :: s2 => globMatchAux f ps s2)
  | f + 1, p :: ps, s =>
      (match s with
       | [] => false
       | c :: s2 => (p == c) && globMatchAux f ps s2)

/-- Glob match of a pattern against a subject string (both as char lists). -/
def globMatch (pat subject : List Char) : Bool :=
  globMatchAux (pat.length + subject.length) pat subject

/-- Model of `fnmatch.fnmatch(name, pattern)` on a POSIX system: there
`os.path.normcase` is the identity, so matching is case sensitive. -/
def fnmatchPosix (name pat : String) : Bool :=
  globMatch pat.toList name.toList

/-- Lower-casing of a string, modelling Python `str.lower` on the ASCII
names and patterns involved here. -/
def lowerChars (s : String) : List Char :=
  s.toList.map Char.toLower

/-- Model of `fnmatch.fnmatch(name.lower(), pattern.lower())`: the
case-insensitive comparison performed by `_should_exclude_directory`. -/
def fnmatchLower (name pat : String) : Bool :=
  globMatch (lowerChars pat) (lowerChars name)

/-- A filesystem path as a list of components. -/
abbrev FsPath := List String

/-- Model of `os.path.basename` on a component-list path (empty string for
the empty path, which never arises in the walks below). -/
def pathBasename (p : FsPath) : String :=
  p.getLastD ""

/-- FileScanner.is_excluded_dir: match the basename of the directory path
against every configured pattern with `fnmatch.fnmatch` (case sensitive on
POSIX, no rule for hidden directories). -/
def is_excluded_dir (dirpath : FsPath) : Bool :=
  EXCLUDED_DIRS.any (fun pat => fnmatchPosix (pathBasename dirpath) pat)

/-- Helper for `str.startswith(".")` on a nonempty check done via chars. -/
def startsWithDot (s : String) : Bool :=
  match s.toList with
  | '.' :: _ => true
  | _ => false

/-- FileScanner._should_exclude_directory: empty names are kept, otherwise a
case-insensitive glob match against EXCLUDED_DIRS, and additionally any name
beginning with a dot is excluded.  Used only by `_count_total_files`. -/
def _should_exclude_directory (dirname : String) : Bool :=
  if dirname = "" then false
  else if EXCLUDED_DIRS.any (fun pat => fnmatchLower dirname pat) then true
  else if startsWithDot dirname then true
  else false

/-- Model of CPython `pathlib.PurePath.suffix` on a basename: the substring
from the last dot, provided that dot is neither the first nor the last
character; otherwise empty. -/
def pySuffix (cs : List Char) : List Char :=
  match cs.reverse.findIdx? (fun c => c == '.') with
  | none => []
  | some j =>
      let i := cs.length - 1 - j
      if 0 < i ∧ i < cs.length - 1 then cs.drop i else []

/-- FileScanner._is_supported_file: empty names are unsupported; otherwise
take `Path(filename).suffix.lower()`, strip the leading dot, and test
membership in SUPPORTED_RAW_FORMATS. -/
def _is_supported_file (filename : String) : Bool :=
  if filename = "" then false
  else
    let ext := (pySuffix filename.toList).map Char.toLower
    let ext2 := match ext with
      | '.' :: rest => rest
      | e => e
    SUPPORTED_RAW_FORMATS.any (fun f => f.toList == ext2)

/-- A metadata value as it reaches `_sanitize_exif_for_json`.  `pstr` is a
Python `str`; `other` is any non-string value together with the outcome of
`str(value)` — `none` models `str` raising `UnicodeError` or `TypeError`,
the two exception types the sanitizer catches. -/
inductive PyValue where
  | pstr (s : List Char)
  | other (typeName : String) (strRepr : Option (List Char))
deriving DecidableEq, Repr

/-- The character filter applied to string values by the sanitizer: keep a
character when its code point is at least 32 or it is tab, newline or
carriage return. -/
def keepChar (c : Char) : Bool :=
  32 ≤ c.toNat || c == '\t' || c == '\n' || c == '\r'

/-- Sanitization of one metadata value, following the body of the per-key
loop of `_sanitize_exif_for_json`: string values first have NUL bytes
removed (the two `replace` calls both remove U+0000) and are then filtered
by `keepChar`; other values become `str(value)`, and if that raises
`UnicodeError` or `TypeError` a marker naming the type is substituted. -/
def sanitizeValue : PyValue → List Char
  | .pstr s => ((s.filter (fun c => c != '\x00')).filter keepChar)
  | .other _ (some r) => r
  | .other tn none => ("<unsupported_data_type_" ++ tn ++ ">").toList

/-- FileScanner._sanitize_exif_for_json over an association list of
metadata entries (the Python dict, in iteration order). -/
def _sanitize_exif_for_json (exif : List (String × PyValue)) :
    List (String × List Char) :=
  exif.map (fun kv => (kv.1, sanitizeValue kv.2))

/-- Counters of PerformanceTracker (src/file_scanner.py lines 40 to 59).
The wall-clock timing accumulators and the rolling sample window are not
modelled; no claim mentions them. -/
structure PerformanceTracker where
  files_processed : Nat
  total_file_size : Nat
  directories_processed : Nat
  files_successful : Nat
  files_failed : Nat
deriving DecidableEq, Repr

/-- The freshly constructed tracker: all counters zero. -/
def initTracker : PerformanceTracker :=
  { files_processed := 0, total_file_size := 0, directories_processed := 0,
    files_successful := 0, files_failed := 0 }

/-- PerformanceTracker.end_file_processing: increment files_processed and
total_file_size, then classify the file as successful or failed according
to the `success` flag.  The periodic `_report_progress` call only reads the
counters and logs, so it is omitted. -/
def end_file_processing (t : PerformanceTracker) (file_size : Nat)
    (success : Bool) : PerformanceTracker :=
  let t1 := { t with files_processed := t.files_processed + 1,
                     total_file_size := t.total_file_size + file_size }
  if success then { t1 with files_successful := t1.files_successful + 1 }
  else { t1 with files_failed := t1.files_failed + 1 }

/-- PerformanceTracker.add_directory. -/
def add_directory (t : PerformanceTracker) : PerformanceTracker :=
  { t with directories_processed := t.directories_processed + 1 }

/-- The tracker mutations available to the scanner; `endFile` is
end_file_processing and `addDir` is add_directory.  (add_exif_time and
add_db_time only touch the unmodelled timing accumulators.) -/
inductive TrackerOp where
  | endFile (file_size : Nat) (success : Bool)
  | addDir
deriving DecidableEq, Repr

/-- Apply one tracker mutation. -/
def applyTrackerOp (t : PerformanceTracker) : TrackerOp → PerformanceTracker
  | .endFile sz ok => end_file_processing t sz ok
  | .addDir => add_directory t

/-- A row of the `directories` table: serial id, unique dirpath, optional
parent id. -/
structure DirRecord where
  id : Nat
  dirpath : FsPath
  parent_id : Option Nat
deriving DecidableEq, Repr

/-- A row of the `files` table, as inserted by `_store_file` (the dir_path
argument of `_store_file` is not part of the insert). -/
structure FileRecord where
  id : Nat
  filename : String
  filepath : FsPath
  filesize : Nat
  created_date : Nat
  modified_date : Nat
  exif_data : List (String × List Char)
  scan_session_id : String
deriving DecidableEq, Repr

/-- The persistent database state: both tables, newest row first, plus the
next value of each serial id sequence. -/
structure DB where
  dirs : List DirRecord
  files : List FileRecord
  nextDirId : Nat
  nextFileId : Nat
deriving DecidableEq, Repr

/-- The empty database. -/
def emptyDB : DB :=
  { dirs := [], files := [], nextDirId := 0, nextFileId := 0 }

/-- Levels of the diagnostics the scanner emits (console logger and
DatabaseLogger merged into one stream). -/
inductive LogLevel where
  | debugL
  | infoL
  | warningL
  | errorL
deriving DecidableEq, Repr

/-- One diagnostic event: level, a tag identifying the message, the optional
file path argument and the optional structured error kind (the error_type
entry of the error_details payload given to DatabaseLogger.log). -/
structure LogEvent where
  level : LogLevel
  tag : String
  file_path : Option FsPath
  error_type : Option String
deriving DecidableEq, Repr

/-- Environment oracles: availability of the preferred extraction tool and,
per path, the stat results, the extracted metadata, and whether a given
database write or stat call raises (`some kind` carries the exception class
name). -/
structure Env where
  etAvailable : Bool
  statFail : FsPath → Option String
  fileFail : FsPath → Option String
  dirFail : FsPath → Option String
  fileSize : FsPath → Nat
  ctime : FsPath → Nat
  mtime : FsPath → Nat
  exif : FsPath → List (String × PyValue)

/-- An environment in which no stat call and no database write raises. -/
def Env.noFail (env : Env) : Prop :=
  (∀ p, env.statFail p = none) ∧ (∀ p, env.fileFail p = none) ∧
    (∀ p, env.dirFail p = none)

/-- State of one `scan_directory` invocation on a fresh FileScanner: the
shared database, the per-scanner tracker and fallback-warning flag, the
process log stream, the chronological trace of `_store_directory` calls
(path and parent argument, recorded whether or not the call succeeds), the
`processed_dirs` set and the `files_processed` counter local to
`scan_directory`. -/
structure RunState where
  db : DB
  tracker : PerformanceTracker
  logs : List LogEvent
  calls : List (FsPath × Option FsPath)
  processedDirs : List FsPath
  count : Nat
  fallbackShown : Bool

/-- FileScanner._store_directory: record the call, then (modelling the
try block, whose exception path is the dirFail oracle) look the path up; if
found return the existing id with no write, otherwise resolve the parent id
by a second lookup (null when absent or when parent_path is none) and insert
a new row.  add_directory runs on both success paths; on failure the error
is logged with logger.error and the Python function returns None. -/
def _store_directory (env : Env) (st : RunState) (dir_path : FsPath)
    (parent_path : Option FsPath) : RunState × Option Nat :=
  let st := { st with calls := st.calls ++ [(dir_path, parent_path)] }
  match env.dirFail dir_path with
  | some kind =>
      ({ st with logs := st.logs ++
          [{ level := .errorL, tag := "Error storing directory",
             file_path := some dir_path, error_type := some kind }] }, none)
  | none =>
      match st.db.dirs.find? (fun r => r.dirpath == dir_path) with
      | some r => ({ st with tracker := add_directory st.tracker }, some r.id)
      | none =>
          let parent_id : Option Nat :=
            match parent_path with
            | none => none
            | some pp =>
                match st.db.dirs.find? (fun r => r.dirpath == pp) with
                | some pr => some pr.id
                | none => none
          let newId := st.db.nextDirId
          let newRec : DirRecord :=
            { id := newId, dirpath := dir_path, parent_id := parent_id }
          ({ st with
              db := { st.db with dirs := newRec :: st.db.dirs,
                                 nextDirId := newId + 1 },
              tracker := add_directory st.tracker }, some newId)

/-- FileScanner._store_file: sanitize the metadata and serialize it (the
sanitizer is total, so the defensive Unicode re-encode branch of the Python
code is unreachable for modelled values), then always insert a fresh row
tagged with the scan session id.  Any exception from the insert (the
fileFail oracle) is logged through DatabaseLogger with the error kind and
the filepath, and the function returns a failure sentinel; the caller
receives it but, as in the source, is free to ignore it. -/
def _store_file (env : Env) (sid : String) (st : RunState)
    (filename : String) (filepath : FsPath) : RunState × Option Nat :=
  match env.fileFail filepath with
  | some kind =>
      ({ st with logs := st.logs ++
          [{ level := .errorL, tag := "Failed to store file",
             file_path := some filepath, error_type := some kind }] }, none)
  | none =>
      let newId := st.db.nextFileId
      let newRec : FileRecord :=
        { id := newId, filename := filename, filepath := filepath,
          filesize := env.fileSize filepath,
          created_date := env.ctime filepath,
          modified_date := env.mtime filepath,
          exif_data := _sanitize_exif_for_json (env.exif filepath),
          scan_session_id := sid }
      ({ st with
          db := { st.db with files := newRec :: st.db.files,
                             nextFileId := newId + 1 } }, some newId)

/-- FileScanner._extract_exif: with the preferred tool available the
metadata oracle is returned directly; otherwise the fallback path runs and,
the first time only on this scanner instance, logs the fallback notice
(logger.info in the source) and sets the instance flag.  Extraction errors
are caught inside the function and only affect the returned mapping, which
the oracle already accounts for. -/
def _extract_exif (env : Env) (st : RunState) (filepath : FsPath) :
    RunState × List (String × PyValue) :=
  if env.etAvailable then (st, env.exif filepath)
  else
    let st :=
      if st.fallbackShown then st
      else { st with fallbackShown := true,
                     logs := st.logs ++
                       [{ level := .infoL, tag := "fallback",
                          file_path := none, error_type := none }] }
    (st, env.exif filepath)

/-- FileScanner._process_file: unsupported names return False immediately.
Otherwise the try block stats the file, extracts metadata and calls
`_store_file` discarding its result, then records success in the tracker
and returns True.  Only an exception escaping before the store call (the
stat, modelled by statFail) reaches the except branch, which logs the error
with its kind and the filepath, records a failure in the tracker, and
returns False.  `_store_file` catches its own exceptions, so a storage
failure still takes the success path here. -/
def _process_file (env : Env) (sid : String) (st : RunState)
    (dirpath : FsPath) (filename : String) : RunState × Bool :=
  if ¬ _is_supported_file filename then (st, false)
  else
    let filepath := dirpath ++ [filename]
    match env.statFail filepath with
    | some kind =>
        ({ st with
            logs := st.logs ++
              [{ level := .errorL, tag := "Failed to process file",
                 file_path := some filepath, error_type := some kind }],
            tracker := end_file_processing st.tracker 0 false }, false)
    | none =>
        let (st1, _exifData) := _extract_exif env st filepath
        let (st2, _storeResult) := _store_file env sid st1 filename filepath
        ({ st2 with
            tracker := end_file_processing st2.tracker
              (env.fileSize filepath) true }, true)

/-- The per-directory file loop of `scan_directory`: process each entry in
order and increment the local files_processed count whenever
`_process_file` returns True. -/
def processFiles (env : Env) (sid : String) (dirpath : FsPath) :
    List String → RunState → RunState
  | [], st => st
  | fn :: fns, st =>
      let (st1, ok) := _process_file env sid st dirpath fn
      let st2 := if ok then { st1 with count := st1.count + 1 } else st1
      processFiles env sid dirpath fns st2

/-- A directory tree as enumerated by `os.walk`: the files directly inside a
directory and its named subdirectories, in enumeration order.  The name of
the scan root itself is carried by the root path, not by the tree node. -/
inductive FSTree where
  | dir (name : String) (files : List String) (subdirs : List FSTree)
deriving Repr

/-- Files directly inside the node. -/
def FSTree.files : FSTree → List String
  | .dir _ fs _ => fs

/-- Subdirectories of the node. -/
def FSTree.subdirs : FSTree → List FSTree
  | .dir _ _ subs => subs

/-- Name of the node. -/
def FSTree.name : FSTree → String
  | .dir n _ _ => n

mutual
/-- FileScanner._count_total_files in the recursive case: walk the tree,
pruning child directories whose name `_should_exclude_directory` rejects
(note: a different filter than the one the scan walk uses), and count the
supported files of every visited directory.  The root directory itself is
never name-checked, matching `os.walk`, which only exposes child names in
`dirs`. -/
def countTotalFilesT : FSTree → Nat
  | .dir _ files subs =>
      files.countP (fun f => _is_supported_file f) + countTotalFilesF subs

/-- Child counting loop of `_count_total_files`: excluded children
contribute nothing and are not descended into. -/
def countTotalFilesF : List FSTree → Nat
  | [] => 0
  | c :: cs =>
      (if _should_exclude_directory c.name then 0 else countTotalFilesT c) +
        countTotalFilesF cs
end

mutual
/-- One iteration of the `os.walk` loop of FileScanner.scan_directory for
the directory at `dirpath` holding subtree `t`, followed by the iterations
for its subtree (os.walk is top down, so the subtree is traversed right
after its root).  An excluded dirpath is skipped entirely and its children
pruned (`dirnames.clear`).  Otherwise a non-root directory whose parent is
already in processed_dirs is stored and added to processed_dirs, every file
is processed, and the walk descends. -/
def visitTree (env : Env) (sid : String) (root : FsPath) :
    FSTree → FsPath → RunState → RunState
  | .dir _ files subs, dirpath, st =>
    if is_excluded_dir dirpath then st
    else
      let st1 :=
        if dirpath = root then st
        else if dirpath.dropLast ∈ st.processedDirs then
          let st' := (_store_directory env st dirpath (some dirpath.dropLast)).1
          { st' with processedDirs := dirpath :: st'.processedDirs }
        else st
      let st2 := processFiles env sid dirpath files st1
      visitForest env sid root subs dirpath st2

/-- Walk iterations contributed by a list of sibling subtrees of the
directory at `dirpath`, in order. -/
def visitForest (env : Env) (sid : String) (root : FsPath) :
    List FSTree → FsPath → RunState → RunState
  | [], _, st => st
  | c :: cs, dirpath, st =>
      visitForest env sid root cs dirpath
        (visitTree env sid root c (dirpath ++ [c.name]) st)
end

/-- The single `os.walk` iteration performed when `recursive` is false: the
root is yielded first; if it is excluded its files are skipped (and with
dirnames cleared the walk ends), otherwise its files are processed and the
loop breaks before any subdirectory is yielded. -/
def visitRootOnly (env : Env) (sid : String) (root : FsPath) (t : FSTree)
    (st : RunState) : RunState :=
  if is_excluded_dir root then st
  else processFiles env sid root t.files st

/-- The log event emitted by `scan_directory` when the pre-count finds no
supported file. -/
def noFilesWarning : LogEvent :=
  { level := .warningL, tag := "No supported files found",
    file_path := none, error_type := none }

/-- The log event emitted by `_count_total_files` when its try block raises
(for instance `os.listdir` on a missing root in the non-recursive case). -/
def countErrorWarning : LogEvent :=
  { level := .warningL, tag := "Error counting files",
    file_path := none, error_type := none }

/-- FileScanner.scan_directory on a fresh FileScanner instance.  `fs = none`
models a root path that does not exist or is not a directory: `os.walk`
yields nothing there (errors are swallowed by its default onerror), and in
the non-recursive case `os.listdir` raises inside `_count_total_files`,
which catches the exception, logs a warning and returns 0.  Either way the
pre-count is 0, so the function logs the no-files warning and returns 0
before any database write.  With a tree present and a positive pre-count,
the root directory is stored with parent None, processed_dirs is seeded
with the root, and the walk runs.  Interim info-level progress logs and the
final report (which only read state) are omitted. -/
def scan_directory (env : Env) (sid : String) (fs : Option FSTree)
    (directory : FsPath) (recursive : Bool) (db : DB)
    (logs0 : List LogEvent) : RunState :=
  let st0 : RunState :=
    { db := db, tracker := initTracker, logs := logs0, calls := [],
      processedDirs := [], count := 0, fallbackShown := false }
  match fs with
  | none =>
      { st0 with logs := st0.logs ++
          (if recursive then [] else [countErrorWarning]) ++ [noFilesWarning] }
  | some t =>
      let total :=
        if recursive then countTotalFilesT t
        else t.files.countP (fun f => _is_supported_file f)
      if total = 0 then { st0 with logs := st0.logs ++ [noFilesWarning] }
      else
        let st1 := (_store_directory env st0 directory none).1
        let st2 := { st1 with processedDirs := [directory] }
        if recursive then visitTree env sid directory t directory st2
        else visitRootOnly env sid directory t st2

/-- The scan loop of scan_cli.main (lines 143 to 152): for each valid
target a fresh FileScanner is constructed (new session id, new tracker, new
fallback-warning flag) and scan_directory is run; the database and the
process log stream persist across targets. -/
def cliScanTargets (env : Env) (recursive : Bool) :
    List (String × FsPath × Option FSTree) → DB → List LogEvent →
      DB × List LogEvent × Nat
  | [], db, logs => (db, logs, 0)
  | (sid, root, fs) :: targets, db, logs =>
      let run := scan_directory env sid fs root recursive db logs
      let (db2, logs2, n2) := cliScanTargets env recursive targets run.db run.logs
      (db2, logs2, run.count + n2)

mutual
/-- Specification-level list of the filepaths the walk processes under a
directory at `dirpath` holding subtree `t`: nothing when the directory is
excluded, otherwise the supported files of the directory followed by those
of its subtrees. -/
def specFilesT : FSTree → FsPath → List FsPath
  | .dir _ files subs, dirpath =>
      if is_excluded_dir dirpath then []
      else
        (files.filter (fun fn => _is_supported_file fn)).map
            (fun fn => dirpath ++ [fn]) ++
          specFilesF subs dirpath

/-- Specification-level processed filepaths of a sibling list. -/
def specFilesF : List FSTree → FsPath → List FsPath
  | [], _ => []
  | c :: cs, dirpath => specFilesT c (dirpath ++ [c.name]) ++ specFilesF cs dirpath
end

/-- The per-name form of the walker exclusion test: `is_excluded_dir`
depends only on the basename. -/
def excludedName (x : String) : Bool :=
  EXCLUDED_DIRS.any (fun pat => fnmatchPosix x pat)

/-- A recorded file path lies directly in a walked directory: it is the
root plus a chain of directory components none of which the walker matcher
excludes, plus the entry name. -/
def filePathOk (root p : FsPath) : Prop :=
  ∃ comps fn, p = root ++ comps ++ [fn] ∧ ∀ x ∈ comps, excludedName x = false

/-- A recorded directory path is the root itself or the root plus a
nonempty chain of components none of which the walker matcher excludes. -/
def dirPathOk (root q : FsPath) : Prop :=
  q = root ∨ ∃ comps, comps ≠ [] ∧ q = root ++ comps ∧
    ∀ x ∈ comps, excludedName x = false

/-- Ordering property of the reconcile-call trace claimed by the spec: a
call for the root carries parent none, and any call for a non-root path
carries its immediate parent (`dropLast`) as the parent argument and is
preceded by a call for that parent. -/
def CallsOk (root : FsPath) (l : List (FsPath × Option FsPath)) : Prop :=
  ∀ i : Fin l.length,
    ((l.get i).1 = root → (l.get i).2 = none) ∧
    ((l.get i).1 ≠ root →
      (l.get i).2 = some (l.get i).1.dropLast ∧
      ∃ j : Fin l.length, j.val < i.val ∧ (l.get j).1 = (l.get i).1.dropLast)

/-- Walk invariant for C7, carried by `visitTree`: the trace satisfies the
ordering property and every path in processed_dirs has been the subject of
a recorded reconcile call. -/
def CallsInv (root : FsPath) (st : RunState) : Prop :=
  CallsOk root st.calls ∧
    ∀ p ∈ st.processedDirs, p ∈ st.calls.map Prod.fst

/-- Number of fallback notices in a log stream. -/
def fbCount (logs : List LogEvent) : Nat :=
  logs.countP (fun e => e.tag == "fallback")

/-- The quantity conserved by every scanner operation: current number of
fallback notices plus the remaining budget of the once-per-instance flag. -/
def fbMeasure (st : RunState) : Nat :=
  fbCount st.logs + (if st.fallbackShown then 0 else 1)

/-- A concrete environment in which the preferred extraction tool is
available and nothing raises. -/
def envOK : Env :=
  { etAvailable := true, statFail := fun _ => none, fileFail := fun _ => none,
    dirFail := fun _ => none, fileSize := fun _ => 7, ctime := fun _ => 1,
    mtime := fun _ => 2, exif := fun _ => [] }

/-- The tree of the repository test fixture: a root with test.jpg, a
subdirectory with test.dng, and an excluded directory 3StarQ70 holding
excluded.jpg. -/
def tTest : FSTree :=
  .dir "data" ["test.jpg"]
    [.dir "subdir" ["test.dng"] [], .dir "3StarQ70" ["excluded.jpg"] []]

/-- A fresh run state over the empty database, as built at the start of
`scan_directory`. -/
def st0run : RunState :=
  { db := emptyDB, tracker := initTracker, logs := [], calls := [],
    processedDirs := [], count := 0, fallbackShown := false }

/-- Claim-side exclusion predicate, following the wording of the
specification: a basename is excluded when it matches one of the
configured glob patterns case-insensitively or begins with a dot. -/
def spec_is_excluded (name : String) : Bool :=
  EXCLUDED_DIRS.any (fun pat => fnmatchLower name pat) || startsWithDot name

/-- Environment in which the database insert for data/a.jpg raises and
everything else succeeds. -/
def envStoreFail : Env :=
  { envOK with fileFail := fun p =>
      if p = ["data", "a.jpg"] then some "OperationalError" else none }

/-- Tree with two supported files directly under the root. -/
def tTwoFiles : FSTree := .dir "data" ["a.jpg", "b.jpg"] []

/-- Environment in which the preferred extraction tool is unavailable, so
every extraction takes the fallback path. -/
def envFallback : Env := { envOK with etAvailable := false }

/-- Tree whose only subdirectory is excluded by the spec-side matcher
(case-insensitive) but not by the walker matcher (case-sensitive). -/
def tNodeModules : FSTree :=
  .dir "data" ["a.jpg"] [.dir "NODE_MODULES" ["b.jpg"] []]

/-- Tree used for the C6 and C7 witnesses: one supported file at the root
and an excluded subtree holding another. -/
def tStarQ : FSTree :=
  .dir "data" ["a.jpg"] [.dir "3StarQ70" ["b.jpg"] []]

/-- Basename of a path extended by one component is that component. -/
theorem pathBasename_concat (l : List String) (x : String) :
    pathBasename (l ++ [x]) = x := by
  simp [pathBasename, List.getLastD_concat]

/-- is_excluded_dir is excludedName of the basename. -/
theorem is_excluded_dir_eq (p : FsPath) :
    is_excluded_dir p = excludedName (pathBasename p) := rfl

/-- is_excluded_dir on an extended path tests the new last component. -/
theorem is_excluded_dir_concat (l : List String) (x : String) :
    is_excluded_dir (l ++ [x]) = excludedName x := by
  rw [is_excluded_dir_eq, pathBasename_concat]

/-- Effect of `_store_directory` on every RunState field other than the
directory table and the tracker: the call is recorded, the log stream can
only grow by a store error event, and nothing else changes. -/
theorem store_directory_frame (env : Env) (st : RunState) (p : FsPath)
    (pp : Option FsPath) :
    (_store_directory env st p pp).1.count = st.count ∧
    (_store_directory env st p pp).1.db.files = st.db.files ∧
    (_store_directory env st p pp).1.db.nextFileId = st.db.nextFileId ∧
    (_store_directory env st p pp).1.processedDirs = st.processedDirs ∧
    (_store_directory env st p pp).1.fallbackShown = st.fallbackShown ∧
    (_store_directory env st p pp).1.calls = st.calls ++ [(p, pp)] ∧
    ∃ ladd, (_store_directory env st p pp).1.logs = st.logs ++ ladd ∧
      ∀ e ∈ ladd, e.tag = "Error storing directory" ∧ e.level = .errorL := by
  unfold _store_directory
  rcases hd : env.dirFail p with _ | kind
  · rcases hf : st.db.dirs.find? (fun r => r.dirpath == p) with _ | r
    · simp [hd, hf]
    · simp [hd, hf]
  · simp [hd]

/-- Effect of `_store_directory` on the directory table: rows are only ever
prepended, a new row has the requested path, and a row is only inserted
when no row with that path exists yet. -/
theorem store_directory_dirs (env : Env) (st : RunState) (p : FsPath)
    (pp : Option FsPath) :
    (_store_directory env st p pp).1.db.dirs = st.db.dirs ∨
      (st.db.dirs.find? (fun r => r.dirpath == p) = none ∧
        ∃ r, r.dirpath = p ∧
          (_store_directory env st p pp).1.db.dirs = r :: st.db.dirs) := by
  unfold _store_directory
  rcases hd : env.dirFail p with _ | kind
  · rcases hf : st.db.dirs.find? (fun r => r.dirpath == p) with _ | r
    · right
      refine ⟨hf, ?_⟩
      simp only [hd, hf]
      exact ⟨_, rfl, rfl⟩
    · left; simp [hd, hf]
  · left; simp [hd]

/-- When no row with path `p` is found, `p` is absent from the path column. -/
theorem find_none_not_mem (dirs : List DirRecord) (p : FsPath)
    (h : dirs.find? (fun r => r.dirpath == p) = none) :
    p ∉ dirs.map (fun r => r.dirpath) := by
  intro hmem
  rcases List.mem_map.mp hmem with ⟨r, hr, hrp⟩
  have := List.find?_eq_none.mp h r hr
  simp [hrp] at this

/-- `_store_directory` preserves distinctness of the stored paths. -/
theorem store_directory_nodup (env : Env) (st : RunState) (p : FsPath)
    (pp : Option FsPath)
    (h : (st.db.dirs.map (fun r => r.dirpath)).Nodup) :
    ((_store_directory env st p pp).1.db.dirs.map (fun r => r.dirpath)).Nodup := by
  rcases store_directory_dirs env st p pp with heq | ⟨hf, r, hrp, heq⟩
  · rw [heq]; exact h
  · rw [heq]
    simp only [List.map_cons, List.nodup_cons]
    exact ⟨hrp ▸ find_none_not_mem st.db.dirs p hf, h⟩

/-- When the lookup or insert does not raise, the requested path is present
in the table afterwards. -/
theorem store_directory_mem (env : Env) (st : RunState) (p : FsPath)
    (pp : Option FsPath) (h : env.dirFail p = none) :
    p ∈ (_store_directory env st p pp).1.db.dirs.map (fun r => r.dirpath) := by
  unfold _store_directory
  rcases hf : st.db.dirs.find? (fun r => r.dirpath == p) with _ | r
  · simp [h, hf]
  · have hrp : r.dirpath = p := by
      have := List.find?_some hf
      simpa using this
    have hrm : r ∈ st.db.dirs := List.mem_of_find?_eq_some hf
    simp only [h, hf]
    exact List.mem_map.mpr ⟨r, by simpa [hrp] using hrm, hrp⟩

/-- `_extract_exif` touches only the log stream (a fallback notice) and the
fallback flag. -/
theorem extract_exif_frame (env : Env) (st : RunState) (p : FsPath) :
    (_extract_exif env st p).1.db = st.db ∧
    (_extract_exif env st p).1.count = st.count ∧
    (_extract_exif env st p).1.processedDirs = st.processedDirs ∧
    (_extract_exif env st p).1.calls = st.calls ∧
    (_extract_exif env st p).1.tracker = st.tracker ∧
    ∃ ladd, (_extract_exif env st p).1.logs = st.logs ++ ladd ∧
      ∀ e ∈ ladd, e.tag = "fallback" ∧ e.level = .infoL := by
  unfold _extract_exif
  rcases he : env.etAvailable
  · rcases hs : st.fallbackShown <;> simp [he, hs]
  · simp [he]

/-- `_process_file` never touches the directory table, the reconcile trace
or the processed_dirs set. -/
theorem process_file_frame (env : Env) (sid : String) (st : RunState)
    (dirpath : FsPath) (fn : String) :
    (_process_file env sid st dirpath fn).1.db.dirs = st.db.dirs ∧
    (_process_file env sid st dirpath fn).1.db.nextDirId = st.db.nextDirId ∧
    (_process_file env sid st dirpath fn).1.calls = st.calls ∧
    (_process_file env sid st dirpath fn).1.processedDirs = st.processedDirs := by
  unfold _process_file
  rcases hsup : _is_supported_file fn
  · simp [hsup]
  · rcases hst : env.statFail (dirpath ++ [fn]) with _ | kind
    · obtain ⟨hdb, _, hpd, hc, _, _⟩ :=
        extract_exif_frame env st (dirpath ++ [fn])
      unfold _store_file
      rcases hff : env.fileFail (dirpath ++ [fn]) with _ | kind
      · simp [hsup, hst, hff, hdb, hpd, hc]
      · simp [hsup, hst, hff, hdb, hpd, hc]
    · simp [hsup, hst]

/-- The per-directory file loop never touches the directory table, the
reconcile trace or the processed_dirs set. -/
theorem processFiles_frame (env : Env) (sid : String) (dirpath : FsPath) :
    ∀ (fns : List String) (st : RunState),
      (processFiles env sid dirpath fns st).db.dirs = st.db.dirs ∧
      (processFiles env sid dirpath fns st).db.nextDirId = st.db.nextDirId ∧
      (processFiles env sid dirpath fns st).calls = st.calls ∧
      (processFiles env sid dirpath fns st).processedDirs = st.processedDirs
  | [], st => by simp [processFiles]
  | fn :: fns, st => by
      obtain ⟨h1, h2, h3, h4⟩ := process_file_frame env sid st dirpath fn
      obtain ⟨g1, g2, g3, g4⟩ :=
        processFiles_frame env sid dirpath fns
          (if (_process_file env sid st dirpath fn).2 then
            { (_process_file env sid st dirpath fn).1 with
                count := (_process_file env sid st dirpath fn).1.count + 1 }
           else (_process_file env sid st dirpath fn).1)
      unfold processFiles
      rcases hok : (_process_file env sid st dirpath fn).2 <;>
        simp only [hok, Bool.false_eq_true, if_false, if_true] <;>
        simp_all

/-- Unfolding equation of the file loop in the cons case. -/
theorem processFiles_cons (env : Env) (sid : String) (dirpath : FsPath)
    (fn : String) (fns : List String) (st : RunState) :
    processFiles env sid dirpath (fn :: fns) st =
      processFiles env sid dirpath fns
        (if (_process_file env sid st dirpath fn).2 then
          { (_process_file env sid st dirpath fn).1 with
              count := (_process_file env sid st dirpath fn).1.count + 1 }
         else (_process_file env sid st dirpath fn).1) := rfl

/-- In an environment where nothing raises, processing a supported file
always succeeds: it returns True, prepends exactly one file row carrying
the session id and the joined path, and leaves the local count alone (the
count is incremented by the caller). -/
theorem process_file_ok (env : Env) (sid : String) (st : RunState)
    (dirpath : FsPath) (fn : String) (h : env.noFail)
    (hsup : _is_supported_file fn = true) :
    (_process_file env sid st dirpath fn).2 = true ∧
    (_process_file env sid st dirpath fn).1.count = st.count ∧
    ∃ r, (_process_file env sid st dirpath fn).1.db.files = r :: st.db.files ∧
      r.filepath = dirpath ++ [fn] ∧ r.scan_session_id = sid := by
  obtain ⟨hstat, hfile, -⟩ := h
  obtain ⟨hdb, hcnt, -, -, -, -⟩ := extract_exif_frame env st (dirpath ++ [fn])
  have heq : (_process_file env sid st dirpath fn).1.db.files =
      { id := st.db.nextFileId, filename := fn, filepath := dirpath ++ [fn],
        filesize := env.fileSize (dirpath ++ [fn]),
        created_date := env.ctime (dirpath ++ [fn]),
        modified_date := env.mtime (dirpath ++ [fn]),
        exif_data := _sanitize_exif_for_json (env.exif (dirpath ++ [fn])),
        scan_session_id := sid } :: st.db.files := by
    unfold _process_file _store_file
    simp [hsup, hstat (dirpath ++ [fn]), hfile (dirpath ++ [fn]), hdb]
  have hret : (_process_file env sid st dirpath fn).2 = true := by
    unfold _process_file
    simp [hsup, hstat (dirpath ++ [fn])]
  have hcount : (_process_file env sid st dirpath fn).1.count = st.count := by
    unfold _process_file _store_file
    rcases hff : env.fileFail (dirpath ++ [fn])
    · simp [hsup, hstat (dirpath ++ [fn]), hff, hcnt]
    · simp [hsup, hstat (dirpath ++ [fn]), hff, hcnt]
  exact ⟨hret, hcount, _, heq, rfl, rfl⟩

/-- Processing an unsupported file changes nothing and returns False. -/
theorem process_file_unsupported (env : Env) (sid : String) (st : RunState)
    (dirpath : FsPath) (fn : String) (hsup : _is_supported_file fn = false) :
    _process_file env sid st dirpath fn = (st, false) := by
  unfold _process_file
  simp [hsup]

/-- In an environment where nothing raises, the per-directory file loop
increments the local count by the number of supported entries. -/
theorem processFiles_count (env : Env) (sid : String) (dirpath : FsPath)
    (h : env.noFail) :
    ∀ (fns : List String) (st : RunState),
      (processFiles env sid dirpath fns st).count =
        st.count + fns.countP (fun fn => _is_supported_file fn)
  | [], st => by simp [processFiles]
  | fn :: fns, st => by
      rw [processFiles_cons]
      rcases hsup : _is_supported_file fn
      · rw [process_file_unsupported env sid st dirpath fn hsup]
        simp only [List.countP_cons, hsup]
        rw [show ((if ((st, false) : RunState × Bool).2 = true then
              { ((st, false) : RunState × Bool).1 with
                  count := ((st, false) : RunState × Bool).1.count + 1 }
            else ((st, false) : RunState × Bool).1) = st) from rfl]
        rw [processFiles_count env sid dirpath h fns st]
        simp
      · obtain ⟨hok, hcnt, -⟩ := process_file_ok env sid st dirpath fn h hsup
        simp only [hok, if_true]
        rw [processFiles_count env sid dirpath h fns _]
        simp [List.countP_cons, hsup, hcnt]
        omega

/-- In an environment where nothing raises, the file loop prepends exactly
the rows for the supported entries, in reverse processing order, all
tagged with the session id. -/
theorem processFiles_files (env : Env) (sid : String) (dirpath : FsPath)
    (h : env.noFail) :
    ∀ (fns : List String) (st : RunState),
      ∃ l, (processFiles env sid dirpath fns st).db.files = l ++ st.db.files ∧
        l.map (fun r => (r.filepath, r.scan_session_id)) =
          ((fns.filter (fun fn => _is_supported_file fn)).map
            (fun fn => (dirpath ++ [fn], sid))).reverse
  | [], st => by simp [processFiles]
  | fn :: fns, st => by
      rw [processFiles_cons]
      rcases hsup : _is_supported_file fn
      · rw [process_file_unsupported env sid st dirpath fn hsup]
        rw [show ((if ((st, false) : RunState × Bool).2 = true then
              { ((st, false) : RunState × Bool).1 with
                  count := ((st, false) : RunState × Bool).1.count + 1 }
            else ((st, false) : RunState × Bool).1) = st) from rfl]
        obtain ⟨l, hl, hproj⟩ := processFiles_files env sid dirpath h fns st
        exact ⟨l, hl, by simp [List.filter_cons, hsup, hproj]⟩
      · obtain ⟨hok, -, r, hr, hrp, hrs⟩ :=
          process_file_ok env sid st dirpath fn h hsup
        simp only [hok, if_true]
        obtain ⟨l, hl, hproj⟩ :=
          processFiles_files env sid dirpath h fns
            { (_process_file env sid st dirpath fn).1 with
                count := (_process_file env sid st dirpath fn).1.count + 1 }
        refine ⟨l ++ [r], ?_, ?_⟩
        · rw [hl]
          simp [hr]
        · simp [hproj, List.filter_cons, hsup, hrp, hrs]

/-- The reconcile step of one walk iteration leaves the local count alone. -/
theorem storeStep_count (env : Env) (root dirpath : FsPath) (st : RunState) :
    (if dirpath = root then st
     else if dirpath.dropLast ∈ st.processedDirs then
       { (_store_directory env st dirpath (some dirpath.dropLast)).1 with
           processedDirs :=
             dirpath ::
               (_store_directory env st dirpath (some dirpath.dropLast)).1.processedDirs }
     else st).count = st.count := by
  by_cases hr : dirpath = root
  · simp [hr]
  · by_cases hm : dirpath.dropLast ∈ st.processedDirs
    · simp only [hr, if_false, hm, if_true]
      exact (store_directory_frame env st dirpath (some dirpath.dropLast)).1
    · simp [hr, hm]

mutual
/-- In an environment where nothing raises, the walk from a directory adds
to the local count exactly the number of specification-level processed
files of its subtree. -/
theorem visitTree_count (env : Env) (sid : String) (root : FsPath)
    (h : env.noFail) :
    ∀ (t : FSTree) (dirpath : FsPath) (st : RunState),
      (visitTree env sid root t dirpath st).count =
        st.count + (specFilesT t dirpath).length
  | .dir n files subs, dirpath, st => by
      by_cases hex : is_excluded_dir dirpath
      · simp [visitTree, specFilesT, hex]
      · simp only [visitTree, specFilesT, hex, Bool.false_eq_true, if_false]
        rw [visitForest_count env sid root h subs dirpath _]
        rw [processFiles_count env sid dirpath h files _]
        rw [storeStep_count env root dirpath st]
        simp [List.countP_eq_length_filter]
        omega

/-- Forest version of `visitTree_count`. -/
theorem visitForest_count (env : Env) (sid : String) (root : FsPath)
    (h : env.noFail) :
    ∀ (ts : List FSTree) (dirpath : FsPath) (st : RunState),
      (visitForest env sid root ts dirpath st).count =
        st.count + (specFilesF ts dirpath).length
  | [], dirpath, st => by simp [visitForest, specFilesF]
  | c :: cs, dirpath, st => by
      rw [visitForest, specFilesF]
      rw [visitForest_count env sid root h cs dirpath _]
      rw [visitTree_count env sid root h c (dirpath ++ [c.name]) st]
      simp
      omega
end

/-- The reconcile step of one walk iteration leaves the file table alone. -/
theorem storeStep_files (env : Env) (root dirpath : FsPath) (st : RunState) :
    (if dirpath = root then st
     else if dirpath.dropLast ∈ st.processedDirs then
       { (_store_directory env st dirpath (some dirpath.dropLast)).1 with
           processedDirs :=
             dirpath ::
               (_store_directory env st dirpath (some dirpath.dropLast)).1.processedDirs }
     else st).db.files = st.db.files := by
  by_cases hr : dirpath = root
  · simp [hr]
  · by_cases hm : dirpath.dropLast ∈ st.processedDirs
    · simp only [hr, if_false, hm, if_true]
      exact (store_directory_frame env st dirpath (some dirpath.dropLast)).2.1
    · simp [hr, hm]

mutual
/-- In an environment where nothing raises, the walk from a directory
prepends to the file table exactly one row per specification-level
processed file of its subtree, in reverse walk order, every row tagged
with the session id; pre-existing rows are untouched. -/
theorem visitTree_files (env : Env) (sid : String) (root : FsPath)
    (h : env.noFail) :
    ∀ (t : FSTree) (dirpath : FsPath) (st : RunState),
      ∃ l, (visitTree env sid root t dirpath st).db.files = l ++ st.db.files ∧
        l.map (fun r => (r.filepath, r.scan_session_id)) =
          ((specFilesT t dirpath).map (fun p => (p, sid))).reverse
  | .dir n files subs, dirpath, st => by
      by_cases hex : is_excluded_dir dirpath
      · exact ⟨[], by simp [visitTree, specFilesT, hex]⟩
      · simp only [visitTree, specFilesT, hex, Bool.false_eq_true, if_false]
        obtain ⟨l1, hl1, hp1⟩ :=
          processFiles_files env sid dirpath h files
            (if dirpath = root then st
             else if dirpath.dropLast ∈ st.processedDirs then
               { (_store_directory env st dirpath (some dirpath.dropLast)).1 with
                   processedDirs :=
                     dirpath ::
                       (_store_directory env st dirpath
                         (some dirpath.dropLast)).1.processedDirs }
             else st)
        obtain ⟨l2, hl2, hp2⟩ := visitForest_files env sid root h subs dirpath _
        refine ⟨l2 ++ l1, ?_, ?_⟩
        · rw [hl2, hl1, storeStep_files env root dirpath st]
          simp
        · simp [hp1, hp2, List.map_map]

/-- Forest version of `visitTree_files`. -/
theorem visitForest_files (env : Env) (sid : String) (root : FsPath)
    (h : env.noFail) :
    ∀ (ts : List FSTree) (dirpath : FsPath) (st : RunState),
      ∃ l, (visitForest env sid root ts dirpath st).db.files = l ++ st.db.files ∧
        l.map (fun r => (r.filepath, r.scan_session_id)) =
          ((specFilesF ts dirpath).map (fun p => (p, sid))).reverse
  | [], dirpath, st => by exact ⟨[], by simp [visitForest, specFilesF]⟩
  | c :: cs, dirpath, st => by
      rw [visitForest, specFilesF]
      obtain ⟨l1, hl1, hp1⟩ :=
        visitTree_files env sid root h c (dirpath ++ [c.name]) st
      obtain ⟨l2, hl2, hp2⟩ := visitForest_files env sid root h cs dirpath _
      refine ⟨l2 ++ l1, ?_, ?_⟩
      · rw [hl2, hl1]
        simp
      · simp [hp1, hp2]
end

/-- The reconcile step of one walk iteration preserves distinctness of the
stored directory paths. -/
theorem storeStep_nodup (env : Env) (root dirpath : FsPath) (st : RunState)
    (h : (st.db.dirs.map (fun r => r.dirpath)).Nodup) :
    ((if dirpath = root then st
      else if dirpath.dropLast ∈ st.processedDirs then
        { (_store_directory env st dirpath (some dirpath.dropLast)).1 with
            processedDirs :=
              dirpath ::
                (_store_directory env st dirpath
                  (some dirpath.dropLast)).1.processedDirs }
      else st).db.dirs.map (fun r => r.dirpath)).Nodup := by
  by_cases hr : dirpath = root
  · simpa [hr] using h
  · by_cases hm : dirpath.dropLast ∈ st.processedDirs
    · simp only [hr, if_false, hm, if_true]
      exact store_directory_nodup env st dirpath (some dirpath.dropLast) h
    · simpa [hr, hm] using h

mutual
/-- The walk never duplicates a directory path: distinctness of the path
column of the directory table is an invariant of `visitTree`. -/
theorem visitTree_nodup (env : Env) (sid : String) (root : FsPath) :
    ∀ (t : FSTree) (dirpath : FsPath) (st : RunState),
      (st.db.dirs.map (fun r => r.dirpath)).Nodup →
      ((visitTree env sid root t dirpath st).db.dirs.map
        (fun r => r.dirpath)).Nodup
  | .dir n files subs, dirpath, st => by
      intro h
      by_cases hex : is_excluded_dir dirpath
      · simpa [visitTree, hex] using h
      · simp only [visitTree, hex, Bool.false_eq_true, if_false]
        apply visitForest_nodup env sid root subs dirpath
        rw [(processFiles_frame env sid dirpath files _).1]
        exact storeStep_nodup env root dirpath st h

/-- Forest version of `visitTree_nodup`. -/
theorem visitForest_nodup (env : Env) (sid : String) (root : FsPath) :
    ∀ (ts : List FSTree) (dirpath : FsPath) (st : RunState),
      (st.db.dirs.map (fun r => r.dirpath)).Nodup →
      ((visitForest env sid root ts dirpath st).db.dirs.map
        (fun r => r.dirpath)).Nodup
  | [], dirpath, st => by
      intro h
      simpa [visitForest] using h
  | c :: cs, dirpath, st => by
      intro h
      rw [visitForest]
      exact visitForest_nodup env sid root cs dirpath _
        (visitTree_nodup env sid root c (dirpath ++ [c.name]) st h)
end

/-- Any row present after `_process_file` was present before or is a row
for the processed path (no environment assumptions). -/
theorem process_file_files_general (env : Env) (sid : String) (st : RunState)
    (dirpath : FsPath) (fn : String) :
    ∀ r ∈ (_process_file env sid st dirpath fn).1.db.files,
      r ∈ st.db.files ∨ r.filepath = dirpath ++ [fn] := by
  intro r hr
  by_cases hsup : _is_supported_file fn
  · rcases hst : env.statFail (dirpath ++ [fn]) with _ | kind
    · obtain ⟨hdb, -, -, -, -, -⟩ := extract_exif_frame env st (dirpath ++ [fn])
      rcases hff : env.fileFail (dirpath ++ [fn]) with _ | kind
      · rw [_process_file] at hr
        unfold _store_file at hr
        simp only [hsup, hst, hff, if_true, Bool.not_true, Bool.false_eq_true,
          if_false, ite_not] at hr
        rw [hdb] at hr
        rcases List.mem_cons.mp hr with hhead | htail
        · right; rw [hhead]
        · left; exact htail
      · rw [_process_file] at hr
        unfold _store_file at hr
        simp only [hsup, hst, hff, if_true, Bool.not_true, Bool.false_eq_true,
          if_false, ite_not] at hr
        rw [hdb] at hr
        left; exact hr
    · rw [_process_file] at hr
      simp only [hsup, hst, if_true, Bool.not_true, Bool.false_eq_true,
        if_false, ite_not] at hr
      left; exact hr
  · rw [process_file_unsupported env sid st dirpath fn (by simpa using hsup)] at hr
    left; exact hr

/-- Any row present after the file loop was present before or belongs to
one of the visited entries of this directory. -/
theorem processFiles_files_general (env : Env) (sid : String)
    (dirpath : FsPath) :
    ∀ (fns : List String) (st : RunState),
      ∀ r ∈ (processFiles env sid dirpath fns st).db.files,
        r ∈ st.db.files ∨ ∃ fn, r.filepath = dirpath ++ [fn]
  | [], st => by
      intro r hr
      left; simpa [processFiles] using hr
  | fn :: fns, st => by
      intro r hr
      rw [processFiles_cons] at hr
      rcases processFiles_files_general env sid dirpath fns _ r hr with hin | hnew
      · have hin2 : r ∈ (_process_file env sid st dirpath fn).1.db.files := by
          rcases hok : (_process_file env sid st dirpath fn).2
          · simpa [hok] using hin
          · simpa [hok] using hin
        rcases process_file_files_general env sid st dirpath fn r hin2 with h1 | h2
        · left; exact h1
        · right; exact ⟨fn, h2⟩
      · right; exact hnew

/-- The reconcile step leaves the file table untouched and adds at most a
row for the visited directory path to the directory table. -/
theorem storeStep_dirs_general (env : Env) (root dirpath : FsPath)
    (st : RunState) :
    ∀ r ∈ (if dirpath = root then st
           else if dirpath.dropLast ∈ st.processedDirs then
             { (_store_directory env st dirpath (some dirpath.dropLast)).1 with
                 processedDirs :=
                   dirpath ::
                     (_store_directory env st dirpath
                       (some dirpath.dropLast)).1.processedDirs }
           else st).db.dirs,
      r ∈ st.db.dirs ∨ (dirpath ≠ root ∧ r.dirpath = dirpath) := by
  intro r hr
  by_cases hroot : dirpath = root
  · left; simpa [hroot] using hr
  · by_cases hm : dirpath.dropLast ∈ st.processedDirs
    · simp only [hroot, if_false, hm, if_true] at hr
      rcases store_directory_dirs env st dirpath (some dirpath.dropLast) with
        heq | ⟨-, rnew, hrp, heq⟩
      · left; rwa [heq] at hr
      · rw [heq] at hr
        rcases List.mem_cons.mp hr with hhead | htail
        · right; exact ⟨hroot, by rw [hhead, hrp]⟩
        · left; exact htail
    · left; simpa [hroot, hm] using hr

/-- All components of a nonempty list satisfy a property when the
components before the last and the last one do. -/
theorem forall_mem_of_dropLast_getLast {l : List String}
    (hne : l ≠ []) (h1 : ∀ x ∈ l.dropLast, excludedName x = false)
    (h2 : excludedName (l.getLast hne) = false) :
    ∀ x ∈ l, excludedName x = false := by
  intro x hx
  rw [← List.dropLast_append_getLast hne] at hx
  rcases List.mem_append.mp hx with hd | hl
  · exact h1 x hd
  · rw [List.mem_singleton.mp hl]
    exact h2

mutual
/-- Walk invariant for C6: provided the directory being visited lies under
the root through a chain whose strict ancestors are not walker-excluded,
every file row keeps satisfying `filePathOk` and every directory row keeps
satisfying `dirPathOk`. -/
theorem visitTree_recordsOk (env : Env) (sid : String) (root : FsPath) :
    ∀ (t : FSTree) (dirpath : FsPath) (st : RunState) (comps : List String),
      dirpath = root ++ comps →
      (∀ x ∈ comps.dropLast, excludedName x = false) →
      (∀ r ∈ st.db.files, filePathOk root r.filepath) →
      (∀ r ∈ st.db.dirs, dirPathOk root r.dirpath) →
      (∀ r ∈ (visitTree env sid root t dirpath st).db.files,
        filePathOk root r.filepath) ∧
      (∀ r ∈ (visitTree env sid root t dirpath st).db.dirs,
        dirPathOk root r.dirpath)
  | .dir n files subs, dirpath, st, comps => by
      intro hdp hanc hfiles hdirs
      by_cases hex : is_excluded_dir dirpath
      · constructor
        · intro r hr
          exact hfiles r (by simpa [visitTree, hex] using hr)
        · intro r hr
          exact hdirs r (by simpa [visitTree, hex] using hr)
      · simp only [visitTree, hex, Bool.false_eq_true, if_false]
        have hcompsOk : ∀ x ∈ comps, excludedName x = false := by
          rcases hc : comps with _ | ⟨y, ys⟩
          · intro x hx; cases hx
          · rw [← hc]
            have hne : comps ≠ [] := by rw [hc]; exact List.cons_ne_nil y ys
            refine forall_mem_of_dropLast_getLast hne hanc ?_
            have hlast : dirpath = (root ++ comps.dropLast) ++ [comps.getLast hne] := by
              rw [hdp, List.append_assoc, List.dropLast_append_getLast hne]
            have := is_excluded_dir_concat (root ++ comps.dropLast)
              (comps.getLast hne)
            rw [← hlast] at this
            rw [← this]
            simpa using hex
        have hdirsMid : ∀ r ∈ (if dirpath = root then st
            else if dirpath.dropLast ∈ st.processedDirs then
              { (_store_directory env st dirpath (some dirpath.dropLast)).1 with
                  processedDirs :=
                    dirpath ::
                      (_store_directory env st dirpath
                        (some dirpath.dropLast)).1.processedDirs }
            else st).db.dirs, dirPathOk root r.dirpath := by
          intro r hr
          rcases storeStep_dirs_general env root dirpath st r hr with hin | ⟨hnr, hrp⟩
          · exact hdirs r hin
          · right
            refine ⟨comps, ?_, by rw [hrp, hdp], hcompsOk⟩
            intro hcnil
            exact hnr (by rw [hdp, hcnil, List.append_nil])
        have hfilesMid : ∀ r ∈ (if dirpath = root then st
            else if dirpath.dropLast ∈ st.processedDirs then
              { (_store_directory env st dirpath (some dirpath.dropLast)).1 with
                  processedDirs :=
                    dirpath ::
                      (_store_directory env st dirpath
                        (some dirpath.dropLast)).1.processedDirs }
            else st).db.files, filePathOk root r.filepath := by
          intro r hr
          apply hfiles
          rwa [storeStep_files env root dirpath st] at hr
        have hfilesAfter : ∀ r ∈ (processFiles env sid dirpath files
            (if dirpath = root then st
             else if dirpath.dropLast ∈ st.processedDirs then
               { (_store_directory env st dirpath (some dirpath.dropLast)).1 with
                   processedDirs :=
                     dirpath ::
                       (_store_directory env st dirpath
                         (some dirpath.dropLast)).1.processedDirs }
             else st)).db.files, filePathOk root r.filepath := by
          intro r hr
          rcases processFiles_files_general env sid dirpath files _ r hr with
            hin | ⟨fn, hfp⟩
          · exact hfilesMid r hin
          · exact ⟨comps, fn, by rw [hfp, hdp], hcompsOk⟩
        have hdirsAfter : ∀ r ∈ (processFiles env sid dirpath files
            (if dirpath = root then st
             else if dirpath.dropLast ∈ st.processedDirs then
               { (_store_directory env st dirpath (some dirpath.dropLast)).1 with
                   processedDirs :=
                     dirpath ::
                       (_store_directory env st dirpath
                         (some dirpath.dropLast)).1.processedDirs }
             else st)).db.dirs, dirPathOk root r.dirpath := by
          intro r hr
          apply hdirsMid
          rwa [(processFiles_frame env sid dirpath files _).1] at hr
        exact visitForest_recordsOk env sid root subs dirpath _ comps hdp
          hcompsOk hfilesAfter hdirsAfter

/-- Forest version of `visitTree_recordsOk`; here every component of the
chain of the parent directory is known good. -/
theorem visitForest_recordsOk (env : Env) (sid : String) (root : FsPath) :
    ∀ (ts : List FSTree) (dirpath : FsPath) (st : RunState)
      (comps : List String),
      dirpath = root ++ comps →
      (∀ x ∈ comps, excludedName x = false) →
      (∀ r ∈ st.db.files, filePathOk root r.filepath) →
      (∀ r ∈ st.db.dirs, dirPathOk root r.dirpath) →
      (∀ r ∈ (visitForest env sid root ts dirpath st).db.files,
        filePathOk root r.filepath) ∧
      (∀ r ∈ (visitForest env sid root ts dirpath st).db.dirs,
        dirPathOk root r.dirpath)
  | [], dirpath, st, comps => by
      intro hdp hall hfiles hdirs
      constructor
      · intro r hr
        exact hfiles r (by simpa [visitForest] using hr)
      · intro r hr
        exact hdirs r (by simpa [visitForest] using hr)
  | c :: cs, dirpath, st, comps => by
      intro hdp hall hfiles hdirs
      rw [visitForest]
      have hchild := visitTree_recordsOk env sid root c (dirpath ++ [c.name])
        st (comps ++ [c.name])
        (by rw [hdp, List.append_assoc])
        (by rw [List.dropLast_concat]; exact hall) hfiles hdirs
      exact visitForest_recordsOk env sid root cs dirpath _ comps hdp hall
        hchild.1 hchild.2
end

/-- Appending a well-parented call preserves the ordering property. -/
theorem CallsOk.append (root : FsPath) (l : List (FsPath × Option FsPath))
    (c : FsPath × Option FsPath) (h : CallsOk root l) (hnr : c.1 ≠ root)
    (hpar : c.2 = some c.1.dropLast)
    (hmem : c.1.dropLast ∈ l.map Prod.fst) :
    CallsOk root (l ++ [c]) := by
  intro i
  have hlen : (l ++ [c]).length = l.length + 1 := by simp
  by_cases hi : i.val < l.length
  · have hget : (l ++ [c]).get i = l.get ⟨i.val, hi⟩ := by
      simp [List.getElem_append_left hi]
    obtain ⟨h1, h2⟩ := h ⟨i.val, hi⟩
    refine ⟨by rw [hget]; exact h1, ?_⟩
    intro hne
    rw [hget] at hne ⊢
    obtain ⟨hp, j, hj, hjp⟩ := h2 hne
    refine ⟨hp, ⟨j.val, by simp; omega⟩, hj, ?_⟩
    have : (l ++ [c]).get ⟨j.val, by simp; omega⟩ = l.get j := by
      simp [List.getElem_append_left j.isLt]
    rw [this]
    exact hjp
  · have hiv : i.val = l.length := by
      have h2 : i.val < l.length + 1 := by simpa using i.isLt
      omega
    have hget : (l ++ [c]).get i = c := by
      have : (l ++ [c]).get i = (l ++ [c]).get ⟨l.length, by simp⟩ := by
        congr 1
        exact Fin.ext hiv
      rw [this]
      simp
    rw [hget]
    refine ⟨fun hr => absurd hr hnr, fun _ => ⟨hpar, ?_⟩⟩
    rcases List.mem_map.mp hmem with ⟨a, ha, hap⟩
    rcases List.mem_iff_get.mp ha with ⟨j, hja⟩
    have hjlt : j.val < (l ++ [c]).length := by
      have := j.isLt
      simp
      omega
    refine ⟨⟨j.val, hjlt⟩, ?_, ?_⟩
    · have := j.isLt
      simp only [Fin.val_mk]
      omega
    · have : (l ++ [c]).get ⟨j.val, hjlt⟩ = l.get j := by
        simp [List.getElem_append_left j.isLt]
      rw [this, hja, hap]

/-- The trace holding only the root call satisfies the ordering property. -/
theorem CallsOk.single (root : FsPath) : CallsOk root [(root, none)] := by
  intro i
  have hiv : i.val = 0 := by
    have h2 : i.val < 1 := i.isLt
    omega
  have hget : ([(root, none)] : List (FsPath × Option FsPath)).get i =
      (root, none) := by
    have : i = ⟨0, by simp⟩ := Fin.ext hiv
    rw [this]
    rfl
  rw [hget]
  exact ⟨fun _ => rfl, fun hne => absurd rfl hne⟩

/-- The reconcile step of one walk iteration preserves the C7 invariant. -/
theorem storeStep_calls (env : Env) (root dirpath : FsPath) (st : RunState)
    (h : CallsInv root st) :
    CallsInv root
      (if dirpath = root then st
       else if dirpath.dropLast ∈ st.processedDirs then
         { (_store_directory env st dirpath (some dirpath.dropLast)).1 with
             processedDirs :=
               dirpath ::
                 (_store_directory env st dirpath
                   (some dirpath.dropLast)).1.processedDirs }
       else st) := by
  by_cases hroot : dirpath = root
  · simpa [hroot] using h
  · by_cases hm : dirpath.dropLast ∈ st.processedDirs
    · simp only [hroot, if_false, hm, if_true]
      obtain ⟨-, -, -, hpd, -, hcalls, -⟩ :=
        store_directory_frame env st dirpath (some dirpath.dropLast)
      constructor
      · show CallsOk root
          (_store_directory env st dirpath (some dirpath.dropLast)).1.calls
        rw [hcalls]
        exact CallsOk.append root st.calls (dirpath, some dirpath.dropLast)
          h.1 hroot rfl (h.2 dirpath.dropLast hm)
      · intro p hp
        show p ∈ (_store_directory env st dirpath
          (some dirpath.dropLast)).1.calls.map Prod.fst
        rw [hcalls, List.map_append]
        rcases List.mem_cons.mp (by simpa [hpd] using hp) with hph | hpt
        · apply List.mem_append_right
          rw [hph]
          simp
        · exact List.mem_append_left _ (h.2 p hpt)
    · simpa [hroot, hm] using h

mutual
/-- The walk preserves the C7 invariant. -/
theorem visitTree_calls (env : Env) (sid : String) (root : FsPath) :
    ∀ (t : FSTree) (dirpath : FsPath) (st : RunState),
      CallsInv root st → CallsInv root (visitTree env sid root t dirpath st)
  | .dir n files subs, dirpath, st => by
      intro h
      by_cases hex : is_excluded_dir dirpath
      · simpa [visitTree, hex] using h
      · simp only [visitTree, hex, Bool.false_eq_true, if_false]
        apply visitForest_calls env sid root subs dirpath
        obtain ⟨-, -, hc, hp⟩ := processFiles_frame env sid dirpath files
          (if dirpath = root then st
           else if dirpath.dropLast ∈ st.processedDirs then
             { (_store_directory env st dirpath (some dirpath.dropLast)).1 with
                 processedDirs :=
                   dirpath ::
                     (_store_directory env st dirpath
                       (some dirpath.dropLast)).1.processedDirs }
           else st)
        have hstep := storeStep_calls env root dirpath st h
        exact ⟨by rw [CallsInv] at hstep; rw [hc]; exact hstep.1,
          by rw [hc, hp]; exact hstep.2⟩

/-- Forest version of `visitTree_calls`. -/
theorem visitForest_calls (env : Env) (sid : String) (root : FsPath) :
    ∀ (ts : List FSTree) (dirpath : FsPath) (st : RunState),
      CallsInv root st → CallsInv root (visitForest env sid root ts dirpath st)
  | [], dirpath, st => by
      intro h
      simpa [visitForest] using h
  | c :: cs, dirpath, st => by
      intro h
      rw [visitForest]
      exact visitForest_calls env sid root cs dirpath _
        (visitTree_calls env sid root c (dirpath ++ [c.name]) st h)
end

mutual
/-- The walk only appends to the reconcile-call trace. -/
theorem visitTree_calls_mono (env : Env) (sid : String) (root : FsPath) :
    ∀ (t : FSTree) (dirpath : FsPath) (st : RunState),
      ∃ l, (visitTree env sid root t dirpath st).calls = st.calls ++ l
  | .dir n files subs, dirpath, st => by
      by_cases hex : is_excluded_dir dirpath
      · exact ⟨[], by simp [visitTree, hex]⟩
      · simp only [visitTree, hex, Bool.false_eq_true, if_false]
        obtain ⟨l2, hl2⟩ := visitForest_calls_mono env sid root subs dirpath
          (processFiles env sid dirpath files
            (if dirpath = root then st
             else if dirpath.dropLast ∈ st.processedDirs then
               { (_store_directory env st dirpath (some dirpath.dropLast)).1 with
                   processedDirs :=
                     dirpath ::
                       (_store_directory env st dirpath
                         (some dirpath.dropLast)).1.processedDirs }
             else st))
        rw [hl2, (processFiles_frame env sid dirpath files _).2.2.1]
        by_cases hroot : dirpath = root
        · exact ⟨l2, by simp [hroot]⟩
        · by_cases hm : dirpath.dropLast ∈ st.processedDirs
          · obtain ⟨-, -, -, -, -, hcalls, -⟩ :=
              store_directory_frame env st dirpath (some dirpath.dropLast)
            refine ⟨(dirpath, some dirpath.dropLast) :: l2, ?_⟩
            simp only [hroot, if_false, hm, if_true]
            rw [hcalls]
            simp
          · exact ⟨l2, by simp [hroot, hm]⟩

/-- Forest version of `visitTree_calls_mono`. -/
theorem visitForest_calls_mono (env : Env) (sid : String) (root : FsPath) :
    ∀ (ts : List FSTree) (dirpath : FsPath) (st : RunState),
      ∃ l, (visitForest env sid root ts dirpath st).calls = st.calls ++ l
  | [], dirpath, st => ⟨[], by simp [visitForest]⟩
  | c :: cs, dirpath, st => by
      rw [visitForest]
      obtain ⟨l1, hl1⟩ :=
        visitTree_calls_mono env sid root c (dirpath ++ [c.name]) st
      obtain ⟨l2, hl2⟩ := visitForest_calls_mono env sid root cs dirpath _
      exact ⟨l1 ++ l2, by rw [hl2, hl1, List.append_assoc]⟩
end

/-- Appending only non-fallback events leaves the fallback count alone. -/
theorem fbCount_append_other (l ladd : List LogEvent)
    (h : ∀ e ∈ ladd, e.tag ≠ "fallback") :
    fbCount (l ++ ladd) = fbCount l := by
  unfold fbCount
  rw [List.countP_append]
  have : ladd.countP (fun e => e.tag == "fallback") = 0 := by
    rw [List.countP_eq_zero]
    intro e he
    simpa using h e he
  omega

/-- `_extract_exif` conserves the fallback measure: it emits a notice only
while simultaneously spending the flag. -/
theorem extract_exif_fb (env : Env) (st : RunState) (p : FsPath) :
    fbMeasure (_extract_exif env st p).1 = fbMeasure st := by
  unfold _extract_exif fbMeasure fbCount
  rcases he : env.etAvailable
  · rcases hs : st.fallbackShown <;>
      simp [he, hs, List.countP_append, List.countP_cons]
  · simp [he]

/-- `_process_file` conserves the fallback measure. -/
theorem process_file_fb (env : Env) (sid : String) (st : RunState)
    (dirpath : FsPath) (fn : String) :
    fbMeasure (_process_file env sid st dirpath fn).1 = fbMeasure st := by
  by_cases hsup : _is_supported_file fn
  · rcases hst : env.statFail (dirpath ++ [fn]) with _ | kind
    · have hx := extract_exif_fb env st (dirpath ++ [fn])
      unfold _process_file _store_file
      rcases hff : env.fileFail (dirpath ++ [fn]) with _ | kind2
      · simp only [hsup, hst, hff, if_true, Bool.not_true, Bool.false_eq_true,
          if_false, ite_not]
        unfold fbMeasure at hx ⊢
        simpa using hx
      · simp only [hsup, hst, hff, if_true, Bool.not_true, Bool.false_eq_true,
          if_false, ite_not]
        unfold fbMeasure at hx ⊢
        rw [fbCount_append_other _ _ (by intro e he; simp at he; simp [he])]
        simpa using hx
    · unfold _process_file
      simp only [hsup, hst, if_true, Bool.not_true, Bool.false_eq_true,
        if_false, ite_not]
      unfold fbMeasure
      rw [fbCount_append_other _ _ (by intro e he; simp at he; simp [he])]
  · rw [process_file_unsupported env sid st dirpath fn (by simpa using hsup)]

/-- The file loop conserves the fallback measure. -/
theorem processFiles_fb (env : Env) (sid : String) (dirpath : FsPath) :
    ∀ (fns : List String) (st : RunState),
      fbMeasure (processFiles env sid dirpath fns st) = fbMeasure st
  | [], st => by simp [processFiles]
  | fn :: fns, st => by
      rw [processFiles_cons]
      rcases hok : (_process_file env sid st dirpath fn).2
      · rw [processFiles_fb env sid dirpath fns _]
        simp only [hok, Bool.false_eq_true, if_false]
        exact process_file_fb env sid st dirpath fn
      · rw [processFiles_fb env sid dirpath fns _]
        simp only [hok, if_true]
        have := process_file_fb env sid st dirpath fn
        unfold fbMeasure fbCount at this ⊢
        simpa using this

/-- The reconcile step conserves the fallback measure. -/
theorem storeStep_fb (env : Env) (root dirpath : FsPath) (st : RunState) :
    fbMeasure
      (if dirpath = root then st
       else if dirpath.dropLast ∈ st.processedDirs then
         { (_store_directory env st dirpath (some dirpath.dropLast)).1 with
             processedDirs :=
               dirpath ::
                 (_store_directory env st dirpath
                   (some dirpath.dropLast)).1.processedDirs }
       else st) = fbMeasure st := by
  by_cases hroot : dirpath = root
  · simp [hroot]
  · by_cases hm : dirpath.dropLast ∈ st.processedDirs
    · simp only [hroot, if_false, hm, if_true]
      obtain ⟨-, -, -, -, hfb, -, ladd, hlogs, hladd⟩ :=
        store_directory_frame env st dirpath (some dirpath.dropLast)
      unfold fbMeasure
      rw [show ({ (_store_directory env st dirpath (some dirpath.dropLast)).1
          with processedDirs := dirpath ::
            (_store_directory env st dirpath
              (some dirpath.dropLast)).1.processedDirs } : RunState).logs =
          (_store_directory env st dirpath (some dirpath.dropLast)).1.logs
        from rfl]
      rw [hlogs, fbCount_append_other _ _
        (by intro e he; rw [(hladd e he).1]; simp), hfb]
    · simp [hroot, hm]

mutual
/-- The walk conserves the fallback measure. -/
theorem visitTree_fb (env : Env) (sid : String) (root : FsPath) :
    ∀ (t : FSTree) (dirpath : FsPath) (st : RunState),
      fbMeasure (visitTree env sid root t dirpath st) = fbMeasure st
  | .dir n files subs, dirpath, st => by
      by_cases hex : is_excluded_dir dirpath
      · simp [visitTree, hex]
      · simp only [visitTree, hex, Bool.false_eq_true, if_false]
        rw [visitForest_fb env sid root subs dirpath _]
        rw [processFiles_fb env sid dirpath files _]
        exact storeStep_fb env root dirpath st

/-- Forest version of `visitTree_fb`. -/
theorem visitForest_fb (env : Env) (sid : String) (root : FsPath) :
    ∀ (ts : List FSTree) (dirpath : FsPath) (st : RunState),
      fbMeasure (visitForest env sid root ts dirpath st) = fbMeasure st
  | [], dirpath, st => by simp [visitForest]
  | c :: cs, dirpath, st => by
      rw [visitForest]
      rw [visitForest_fb env sid root cs dirpath _]
      exact visitTree_fb env sid root c (dirpath ++ [c.name]) st
end

/-- With a positive pre-count, `scan_directory` is the walk started from
the state obtained after storing the root with parent none and seeding
processed_dirs with the root. -/
theorem scan_directory_eq_walk (env : Env) (sid : String) (t : FSTree)
    (root : FsPath) (db : DB) (logs0 : List LogEvent)
    (h0 : 0 < countTotalFilesT t) :
    scan_directory env sid (some t) root true db logs0 =
      visitTree env sid root t root
        { (_store_directory env
            { db := db, tracker := initTracker, logs := logs0, calls := [],
              processedDirs := [], count := 0, fallbackShown := false }
            root none).1 with processedDirs := [root] } := by
  unfold scan_directory
  have hne : ¬ (countTotalFilesT t = 0) := by omega
  simp [hne]

/-- With a positive pre-count and no failures, a scan processes exactly the
specification-level files of the tree. -/
theorem scan_directory_count (env : Env) (sid : String) (t : FSTree)
    (root : FsPath) (db : DB) (logs0 : List LogEvent) (h : env.noFail)
    (h0 : 0 < countTotalFilesT t) :
    (scan_directory env sid (some t) root true db logs0).count =
      (specFilesT t root).length := by
  rw [scan_directory_eq_walk env sid t root db logs0 h0]
  rw [visitTree_count env sid root h t root _]
  have hc : (_store_directory env
      { db := db, tracker := initTracker, logs := logs0, calls := [],
        processedDirs := [], count := 0, fallbackShown := false }
      root none).1.count = 0 :=
    (store_directory_frame env _ root none).1
  simp [hc]

/-- With a positive pre-count and no failures, a scan prepends exactly one
file row per specification-level file, tagged with the session id, leaving
pre-existing rows untouched. -/
theorem scan_directory_files (env : Env) (sid : String) (t : FSTree)
    (root : FsPath) (db : DB) (logs0 : List LogEvent) (h : env.noFail)
    (h0 : 0 < countTotalFilesT t) :
    ∃ l, (scan_directory env sid (some t) root true db logs0).db.files =
        l ++ db.files ∧
      l.map (fun r => (r.filepath, r.scan_session_id)) =
        ((specFilesT t root).map (fun p => (p, sid))).reverse := by
  rw [scan_directory_eq_walk env sid t root db logs0 h0]
  obtain ⟨l, hl, hp⟩ := visitTree_files env sid root h t root
    { (_store_directory env
        { db := db, tracker := initTracker, logs := logs0, calls := [],
          processedDirs := [], count := 0, fallbackShown := false }
        root none).1 with processedDirs := [root] }
  refine ⟨l, ?_, hp⟩
  rw [hl]
  have hf : (_store_directory env
      { db := db, tracker := initTracker, logs := logs0, calls := [],
        processedDirs := [], count := 0, fallbackShown := false }
      root none).1.db.files = db.files :=
    (store_directory_frame env _ root none).2.1
  simp [hf]

/-- A scan with a positive pre-count preserves distinctness of the stored
directory paths (no failure assumptions). -/
theorem scan_directory_nodup (env : Env) (sid : String) (t : FSTree)
    (root : FsPath) (db : DB) (logs0 : List LogEvent)
    (h0 : 0 < countTotalFilesT t)
    (hn : (db.dirs.map (fun r => r.dirpath)).Nodup) :
    ((scan_directory env sid (some t) root true db
      logs0).db.dirs.map (fun r => r.dirpath)).Nodup := by
  rw [scan_directory_eq_walk env sid t root db logs0 h0]
  apply visitTree_nodup env sid root t root
  exact store_directory_nodup env _ root none hn

/-- A scan from the empty database with a positive pre-count only records
well-placed rows: every file row lies in a walked directory and every
directory row is the root or a chain of non-excluded components under it
(no failure assumptions). -/
theorem scan_directory_recordsOk (env : Env) (sid : String) (t : FSTree)
    (root : FsPath) (logs0 : List LogEvent) (h0 : 0 < countTotalFilesT t) :
    (∀ r ∈ (scan_directory env sid (some t) root true emptyDB
        logs0).db.files, filePathOk root r.filepath) ∧
    (∀ r ∈ (scan_directory env sid (some t) root true emptyDB
        logs0).db.dirs, dirPathOk root r.dirpath) := by
  rw [scan_directory_eq_walk env sid t root emptyDB logs0 h0]
  apply visitTree_recordsOk env sid root t root _ ([] : List String)
    (by simp) (by intro x hx; cases hx)
  · intro r hr
    have hf : (_store_directory env
        { db := emptyDB, tracker := initTracker, logs := logs0, calls := [],
          processedDirs := [], count := 0, fallbackShown := false }
        root none).1.db.files = emptyDB.files :=
      (store_directory_frame env _ root none).2.1
    rw [show ({ (_store_directory env
        { db := emptyDB, tracker := initTracker, logs := logs0, calls := [],
          processedDirs := [], count := 0, fallbackShown := false }
        root none).1 with processedDirs := [root] } : RunState).db.files =
        (_store_directory env
        { db := emptyDB, tracker := initTracker, logs := logs0, calls := [],
          processedDirs := [], count := 0, fallbackShown := false }
        root none).1.db.files from rfl, hf] at hr
    cases hr
  · intro r hr
    rcases store_directory_dirs env
      { db := emptyDB, tracker := initTracker, logs := logs0, calls := [],
        processedDirs := [], count := 0, fallbackShown := false }
      root none with heq | ⟨-, rnew, hrp, heq⟩
    · rw [show ({ (_store_directory env
          { db := emptyDB, tracker := initTracker, logs := logs0, calls := [],
            processedDirs := [], count := 0, fallbackShown := false }
          root none).1 with processedDirs := [root] } : RunState).db.dirs =
          (_store_directory env
          { db := emptyDB, tracker := initTracker, logs := logs0, calls := [],
            processedDirs := [], count := 0, fallbackShown := false }
          root none).1.db.dirs from rfl, heq] at hr
      cases hr
    · rw [show ({ (_store_directory env
          { db := emptyDB, tracker := initTracker, logs := logs0, calls := [],
            processedDirs := [], count := 0, fallbackShown := false }
          root none).1 with processedDirs := [root] } : RunState).db.dirs =
          (_store_directory env
          { db := emptyDB, tracker := initTracker, logs := logs0, calls := [],
            processedDirs := [], count := 0, fallbackShown := false }
          root none).1.db.dirs from rfl, heq] at hr
      rcases List.mem_cons.mp hr with hh | ht
      · left
        rw [hh, hrp]
      · cases ht

/-- The non-recursive single iteration conserves the fallback measure. -/
theorem visitRootOnly_fb (env : Env) (sid : String) (root : FsPath)
    (t : FSTree) (st : RunState) :
    fbMeasure (visitRootOnly env sid root t st) = fbMeasure st := by
  unfold visitRootOnly
  by_cases hex : is_excluded_dir root
  · simp [hex]
  · simp only [hex, Bool.false_eq_true, if_false]
    exact processFiles_fb env sid root t.files st

/-- The fallback count is bounded by any value of the measure. -/
theorem fbCount_le_of_measure (st : RunState) (N : Nat)
    (h : fbMeasure st = N) : fbCount st.logs ≤ N := by
  unfold fbMeasure at h
  omega

/-- Every scan invocation adds at most one fallback notice to the log
stream, because the once-per-instance flag starts unset on the fresh
scanner and is spent exactly when the notice is emitted. -/
theorem scan_directory_fb (env : Env) (sid : String) (fs : Option FSTree)
    (root : FsPath) (recursive : Bool) (db : DB) (logs0 : List LogEvent) :
    fbCount (scan_directory env sid fs root recursive db logs0).logs ≤
      fbCount logs0 + 1 := by
  unfold scan_directory
  rcases fs with _ | t
  · simp only []
    rw [fbCount_append_other _ _ (by intro e he; simp_all [noFilesWarning])]
    rw [fbCount_append_other _ _
      (by intro e he; rcases recursive <;> simp_all [countErrorWarning])]
    omega
  · simp only []
    by_cases htot : (if recursive then countTotalFilesT t
        else t.files.countP (fun f => _is_supported_file f)) = 0
    · simp only [htot, if_true]
      rw [fbCount_append_other]
      · omega
      · intro e he
        simp_all [noFilesWarning]
    · simp only [htot, if_false]
      have hst1 : fbMeasure
          { (_store_directory env
              { db := db, tracker := initTracker, logs := logs0, calls := [],
                processedDirs := [], count := 0, fallbackShown := false }
              root none).1 with processedDirs := [root] } =
          fbCount logs0 + 1 := by
        obtain ⟨-, -, -, -, hfb, -, ladd, hlogs, hladd⟩ :=
          store_directory_frame env
            { db := db, tracker := initTracker, logs := logs0, calls := [],
              processedDirs := [], count := 0, fallbackShown := false }
            root none
        unfold fbMeasure
        rw [show ({ (_store_directory env
            { db := db, tracker := initTracker, logs := logs0, calls := [],
              processedDirs := [], count := 0, fallbackShown := false }
            root none).1 with processedDirs := [root] } : RunState).logs =
            (_store_directory env
            { db := db, tracker := initTracker, logs := logs0, calls := [],
              processedDirs := [], count := 0, fallbackShown := false }
            root none).1.logs from rfl]
        rw [show ({ (_store_directory env
            { db := db, tracker := initTracker, logs := logs0, calls := [],
              processedDirs := [], count := 0, fallbackShown := false }
            root none).1 with processedDirs := [root] } : RunState).fallbackShown =
            (_store_directory env
            { db := db, tracker := initTracker, logs := logs0, calls := [],
              processedDirs := [], count := 0, fallbackShown := false }
            root none).1.fallbackShown from rfl]
        rw [hlogs, fbCount_append_other _ _
          (by intro e he; rw [(hladd e he).1]; simp), hfb]
        simp
      rcases recursive
      · simp only [Bool.false_eq_true, if_false]
        refine fbCount_le_of_measure _ _ ?_
        rw [visitRootOnly_fb]
        exact hst1
      · simp only [if_true]
        refine fbCount_le_of_measure _ _ ?_
        rw [visitTree_fb]
        exact hst1

/-- With a positive pre-count, the reconcile-call trace of a scan starts
with the root call (parent none) and satisfies the ordering property. -/
theorem scan_directory_callsOk (env : Env) (sid : String) (t : FSTree)
    (root : FsPath) (db : DB) (logs0 : List LogEvent)
    (h0 : 0 < countTotalFilesT t) :
    CallsOk root (scan_directory env sid (some t) root true db logs0).calls ∧
    (scan_directory env sid (some t) root true db
      logs0).calls.head? = some (root, none) := by
  rw [scan_directory_eq_walk env sid t root db logs0 h0]
  have hcalls : (_store_directory env
      { db := db, tracker := initTracker, logs := logs0, calls := [],
        processedDirs := [], count := 0, fallbackShown := false }
      root none).1.calls = [(root, none)] := by
    have := (store_directory_frame env
      { db := db, tracker := initTracker, logs := logs0, calls := [],
        processedDirs := [], count := 0, fallbackShown := false }
      root none).2.2.2.2.2.1
    simpa using this
  have hinv : CallsInv root
      { (_store_directory env
          { db := db, tracker := initTracker, logs := logs0, calls := [],
            processedDirs := [], count := 0, fallbackShown := false }
          root none).1 with processedDirs := [root] } := by
    constructor
    · show CallsOk root (_store_directory env
        { db := db, tracker := initTracker, logs := logs0, calls := [],
          processedDirs := [], count := 0, fallbackShown := false }
        root none).1.calls
      rw [hcalls]
      exact CallsOk.single root
    · intro p hp
      show p ∈ (_store_directory env
        { db := db, tracker := initTracker, logs := logs0, calls := [],
          processedDirs := [], count := 0, fallbackShown := false }
        root none).1.calls.map Prod.fst
      rw [hcalls]
      simp at hp
      simp [hp]
  constructor
  · exact (visitTree_calls env sid root t root _ hinv).1
  · obtain ⟨l, hl⟩ := visitTree_calls_mono env sid root t root
      { (_store_directory env
          { db := db, tracker := initTracker, logs := logs0, calls := [],
            processedDirs := [], count := 0, fallbackShown := false }
          root none).1 with processedDirs := [root] }
    rw [hl]
    rw [show ({ (_store_directory env
        { db := db, tracker := initTracker, logs := logs0, calls := [],
          processedDirs := [], count := 0, fallbackShown := false }
        root none).1 with processedDirs := [root] } : RunState).calls =
        (_store_directory env
        { db := db, tracker := initTracker, logs := logs0, calls := [],
          processedDirs := [], count := 0, fallbackShown := false }
        root none).1.calls from rfl, hcalls]
    rfl

/-- envOK raises nowhere. -/
theorem envOK_noFail : envOK.noFail :=
  ⟨fun _ => rfl, fun _ => rfl, fun _ => rfl⟩

/-- Each tracker mutation preserves the classification identity. -/
theorem applyTrackerOp_inv (t : PerformanceTracker) (op : TrackerOp)
    (h : t.files_processed = t.files_successful + t.files_failed) :
    (applyTrackerOp t op).files_processed =
      (applyTrackerOp t op).files_successful +
        (applyTrackerOp t op).files_failed := by
  rcases op with ⟨sz, ok⟩ | _
  · unfold applyTrackerOp end_file_processing
    rcases ok <;> simp <;> omega
  · unfold applyTrackerOp add_directory
    simpa using h

/-- Folding tracker mutations from a good state keeps the identity. -/
theorem foldTrackerOps_inv (ops : List TrackerOp) :
    ∀ t : PerformanceTracker,
      t.files_processed = t.files_successful + t.files_failed →
      (ops.foldl applyTrackerOp t).files_processed =
        (ops.foldl applyTrackerOp t).files_successful +
          (ops.foldl applyTrackerOp t).files_failed := by
  induction ops with
  | nil => intro t h; simpa using h
  | cons op ops ih =>
      intro t h
      simpa using ih (applyTrackerOp t op) (applyTrackerOp_inv t op h)

/-- C10: after every completed call to PerformanceTracker.end_file_processing,
files_processed equals files_successful plus files_failed; each call
classifies the file as exactly one of successful or failed, and no modelled
tracker operation moves these counters outside end_file_processing. -/
theorem C10_processed_eq_successful_add_failed (ops : List TrackerOp) :
    (ops.foldl applyTrackerOp initTracker).files_processed =
      (ops.foldl applyTrackerOp initTracker).files_successful +
        (ops.foldl applyTrackerOp initTracker).files_failed :=
  foldTrackerOps_inv ops initTracker rfl

/-- C8: the metadata sanitizer is total by construction; on every string
value it acts as the single character filter keeping exactly the
characters of code point at least 32 together with tab, newline and
carriage return (in particular every NUL byte and every other C0 control
character is removed and nothing else is); and every value whose string
conversion raises is replaced by a marker naming the unsupported type,
with no key ever dropped. -/
theorem C8_sanitizer_behaviour :
    (∀ s : List Char, sanitizeValue (.pstr s) = s.filter keepChar) ∧
    (∀ s : List Char, ∀ c ∈ sanitizeValue (.pstr s),
      32 ≤ c.toNat ∨ c = '\t' ∨ c = '\n' ∨ c = '\r') ∧
    (∀ s : List Char, ∀ c ∈ s,
      (32 ≤ c.toNat ∨ c = '\t' ∨ c = '\n' ∨ c = '\r') →
      c ∈ sanitizeValue (.pstr s)) ∧
    (∀ tn : String, sanitizeValue (.other tn none) =
      ("<unsupported_data_type_" ++ tn ++ ">").toList) ∧
    (∀ exif : List (String × PyValue),
      (_sanitize_exif_for_json exif).map Prod.fst = exif.map Prod.fst) := by
  have hkeep : ∀ c : Char, keepChar c = true ↔
      (32 ≤ c.toNat ∨ c = '\t' ∨ c = '\n' ∨ c = '\r') := by
    intro c
    unfold keepChar
    simp [or_assoc]
  have hfilter : ∀ s : List Char,
      sanitizeValue (.pstr s) = s.filter keepChar := by
    intro s
    show (s.filter (fun c => c != '\x00')).filter keepChar = s.filter keepChar
    rw [List.filter_filter]
    apply List.filter_congr
    intro c hc
    by_cases hz : c = '\x00'
    · subst hz
      decide
    · simp [hz]
  refine ⟨hfilter, ?_, ?_, fun tn => rfl, ?_⟩
  · intro s c hc
    rw [hfilter] at hc
    exact (hkeep c).mp (List.of_mem_filter hc)
  · intro s c hc hgood
    rw [hfilter]
    exact List.mem_filter.mpr ⟨hc, (hkeep c).mpr hgood⟩
  · intro exif
    unfold _sanitize_exif_for_json
    rw [List.map_map]
    rfl

/-- C8 witness: the theorem evaluated on a concrete string containing a NUL
byte, a bell control character, a tab and a printable letter. -/
theorem C8_sanitizer_behaviour_witness :
    '\t' ∈ sanitizeValue (.pstr ['\x00', '\x07', '\t', 'a']) :=
  C8_sanitizer_behaviour.2.2.1 ['\x00', '\x07', '\t', 'a'] '\t' (by decide)
    (by decide)

/-- C2 counterexample: the walker applies `is_excluded_dir`, which does not
implement the claimed rule.  The hidden directory name .cache begins with a
dot, so the claimed check returns true, but `is_excluded_dir` returns
false for it (it matches no configured pattern case-sensitively and has no
hidden-directory rule). -/
theorem C2_counterexample :
    ¬ (is_excluded_dir ["home", ".cache"] = true ↔
        spec_is_excluded ".cache" = true) := by
  decide

/-- C2 amended: the exclusion check applied by the walk of scan_directory,
`is_excluded_dir`, returns true exactly when the basename matches one of
the configured glob patterns case-sensitively (POSIX fnmatch), with no
rule for names beginning with a dot; the case-insensitive match plus
hidden-name rule of the claim is instead implemented by
`_should_exclude_directory`, which only the pre-scan file count uses. -/
theorem C2_walker_exclusion_characterization :
    (∀ p : FsPath, is_excluded_dir p = true ↔
      ∃ pat ∈ EXCLUDED_DIRS, fnmatchPosix (pathBasename p) pat = true) ∧
    (∀ name : String, _should_exclude_directory name = true ↔
      ((∃ pat ∈ EXCLUDED_DIRS, fnmatchLower name pat = true) ∨
        startsWithDot name = true)) := by
  constructor
  · intro p
    unfold is_excluded_dir
    simp [List.any_eq_true]
  · intro name
    by_cases h0 : name = ""
    · subst h0
      decide
    · have hb : _should_exclude_directory name =
          (EXCLUDED_DIRS.any (fun pat => fnmatchLower name pat) ||
            startsWithDot name) := by
        unfold _should_exclude_directory
        rcases hA : EXCLUDED_DIRS.any (fun pat => fnmatchLower name pat) <;>
          rcases hS : startsWithDot name <;> simp [h0, hA, hS]
      rw [hb]
      simp [List.any_eq_true]

/-- C2 witness: the amended characterization evaluated on the concrete
basename 3starq70, which matches the pattern for star-quality export
directories case-insensitively. -/
theorem C2_walker_exclusion_characterization_witness :
    _should_exclude_directory "3starq70" = true :=
  (C2_walker_exclusion_characterization.2 "3starq70").mpr
    (Or.inl ⟨"*StarQ*", by decide, by decide⟩)

/-- C3 counterexample: scanning a root that does not exist (os.walk yields
nothing for it) reports no error-level event at all — the run only logs
warnings and returns 0, indistinguishable from an empty tree, so the claim
that the scan fails with a reported error is false at this input. -/
theorem C3_counterexample :
    ¬ ∃ e ∈ (scan_directory envOK "s" none ["missing"] true emptyDB []).logs,
      e.level = .errorL := by
  decide

/-- C3 amended: when scan_directory is invoked on a root path that does not
exist or is not a directory, no directory or file record is written, no
reconcile call is made and the function returns 0 — but it does not fail:
it appends only warning-level events (the no-files warning, plus the
counting warning in the non-recursive case) and reports no error.  Root
validation lives only in the CLI, which skips such targets. -/
theorem C3_missing_root_no_partial_state (env : Env) (sid : String)
    (root : FsPath) (recursive : Bool) (db : DB) (logs0 : List LogEvent) :
    (scan_directory env sid none root recursive db logs0).db = db ∧
    (scan_directory env sid none root recursive db logs0).count = 0 ∧
    (scan_directory env sid none root recursive db logs0).calls = [] ∧
    (∃ e ∈ (scan_directory env sid none root recursive db logs0).logs,
      e.level = .warningL) ∧
    (∀ e ∈ (scan_directory env sid none root recursive db logs0).logs,
      e.level = .errorL → e ∈ logs0) := by
  refine ⟨rfl, rfl, rfl, ?_, ?_⟩
  · refine ⟨noFilesWarning, ?_, rfl⟩
    show noFilesWarning ∈ logs0 ++
      (if recursive then [] else [countErrorWarning]) ++ [noFilesWarning]
    simp
  · intro e he herr
    have he2 : e ∈ logs0 ++
        (if recursive then [] else [countErrorWarning]) ++ [noFilesWarning] :=
      he
    rcases List.mem_append.mp he2 with h12 | h3
    · rcases List.mem_append.mp h12 with h1 | h2
      · exact h1
      · rcases recursive
        · simp at h2
          rw [h2] at herr
          cases herr
        · simp at h2
    · simp at h3
      rw [h3] at herr
      cases herr

/-- C3 witness: the amended theorem evaluated on a concrete missing root
over the empty database. -/
theorem C3_missing_root_no_partial_state_witness :
    (scan_directory envOK "s" none ["missing"] true emptyDB []).db = emptyDB ∧
    (scan_directory envOK "s" none ["missing"] true emptyDB []).count = 0 :=
  ⟨(C3_missing_root_no_partial_state envOK "s" ["missing"] true emptyDB []).1,
   (C3_missing_root_no_partial_state envOK "s" ["missing"] true emptyDB
     []).2.1⟩

/-- A reconcile call that does not raise leaves the table holding a row
for the requested path, findable by the lookup the function itself uses,
and returns the id of that row. -/
theorem store_directory_success (env : Env) (st : RunState) (p : FsPath)
    (pp : Option FsPath) (h1 : env.dirFail p = none) :
    ∃ rr : DirRecord,
      (_store_directory env st p pp).1.db.dirs.find?
        (fun r => r.dirpath == p) = some rr ∧
      rr.dirpath = p ∧
      (_store_directory env st p pp).2 = some rr.id := by
  rcases hf : st.db.dirs.find? (fun r => r.dirpath == p) with _ | r
  · unfold _store_directory
    simp only [h1, hf]
    rw [List.find?_cons_of_pos _ (by simp)]
    exact ⟨_, rfl, rfl, rfl⟩
  · have hrp : r.dirpath = p := by simpa using List.find?_some hf
    unfold _store_directory
    simp only [h1, hf]
    exact ⟨r, rfl, hrp, rfl⟩

/-- C5: directory reconciliation is idempotent.  If a reconcile call for a
path does not raise, it returns an id; any later reconcile call for the
same path — with any parent argument, in any environment in which the call
does not raise, and after any further inserts of other paths — returns the
same id and performs no insert. -/
theorem C5_reconcile_idempotent (env env2 : Env) (st st2 : RunState)
    (p : FsPath) (pp pp2 : Option FsPath) (l : List DirRecord)
    (h1 : env.dirFail p = none) (h2 : env2.dirFail p = none)
    (hl : st2.db.dirs = l ++ (_store_directory env st p pp).1.db.dirs)
    (hnew : ∀ r ∈ l, r.dirpath ≠ p) :
    ∃ i, (_store_directory env st p pp).2 = some i ∧
      (_store_directory env2 st2 p pp2).2 = some i ∧
      (_store_directory env2 st2 p pp2).1.db.dirs = st2.db.dirs := by
  have hlnone : l.find? (fun r => r.dirpath == p) = none := by
    rw [List.find?_eq_none]
    intro r hr
    simpa using hnew r hr
  obtain ⟨rr, hfind1, hrp, hret1⟩ := store_directory_success env st p pp h1
  have hfind2 : st2.db.dirs.find? (fun r => r.dirpath == p) = some rr := by
    rw [hl, List.find?_append, hlnone]
    simpa using hfind1
  refine ⟨rr.id, hret1, ?_, ?_⟩
  · unfold _store_directory
    simp [h2, hfind2]
  · unfold _store_directory
    simp [h2, hfind2]

/-- C5 witness: the idempotence theorem evaluated on a concrete double
reconcile of the same path over the empty database. -/
theorem C5_reconcile_idempotent_witness :
    ∃ i, (_store_directory envOK st0run ["data"] none).2 = some i ∧
      (_store_directory envOK (_store_directory envOK st0run ["data"] none).1
        ["data"] none).2 = some i ∧
      (_store_directory envOK (_store_directory envOK st0run ["data"] none).1
        ["data"] none).1.db.dirs =
        (_store_directory envOK st0run ["data"] none).1.db.dirs :=
  C5_reconcile_idempotent envOK envOK st0run
    (_store_directory envOK st0run ["data"] none).1 ["data"] none none []
    rfl rfl (by simp) (by intro r hr; cases hr)

/-- C1: evaluation of the scan at the failing input.  When the record
storage for data/a.jpg raises, the error is logged once with the error
kind and the filepath, and the scan continues (data/b.jpg is still
recorded and the run completes), as the claim states; but the file is
counted as successful, not failed — files_successful ends at 2 and
files_failed at 0, because `_process_file` ignores the failure sentinel
returned by `_store_file` and reaches end_file_processing with
success=True.  The claim (and the error-handling section of the spec,
which the code plainly intends to implement, having `_store_file` report
failure for exactly this purpose) says the file must be counted as
failed. -/
theorem C1_storage_failure_miscounted :
    (scan_directory envStoreFail "s1" (some tTwoFiles) ["data"] true emptyDB
      []).logs =
      [{ level := .errorL, tag := "Failed to store file",
         file_path := some ["data", "a.jpg"],
         error_type := some "OperationalError" }] ∧
    (scan_directory envStoreFail "s1" (some tTwoFiles) ["data"] true emptyDB
      []).tracker.files_successful = 2 ∧
    (scan_directory envStoreFail "s1" (some tTwoFiles) ["data"] true emptyDB
      []).tracker.files_failed = 0 ∧
    (scan_directory envStoreFail "s1" (some tTwoFiles) ["data"] true emptyDB
      []).db.files.map (fun r => r.filepath) = [["data", "b.jpg"]] ∧
    (scan_directory envStoreFail "s1" (some tTwoFiles) ["data"] true emptyDB
      []).count = 2 := by
  decide

/-- C9 counterexample: a process whose CLI loop scans two targets creates a
fresh FileScanner per target; the once-shown flag is per instance, so the
fallback notice is emitted twice in one process lifetime. -/
theorem C9_counterexample :
    ¬ ((cliScanTargets envFallback true
        [("s1", ["d1"], some (.dir "d1" ["a.jpg"] [])),
         ("s2", ["d2"], some (.dir "d2" ["b.jpg"] []))]
        emptyDB []).2.1.countP (fun e => e.tag == "fallback") ≤ 1) := by
  decide

/-- C9 amended: the fallback notice is emitted at most once per
scan_directory invocation on its fresh FileScanner instance (the flag is
per scanner, and the CLI builds one scanner per target), regardless of how
many files the scan extracts; a process running several scans can see it
once per scanner instance. -/
theorem C9_fallback_once_per_scanner (env : Env) (sid : String)
    (fs : Option FSTree) (root : FsPath) (recursive : Bool) (db : DB)
    (logs0 : List LogEvent) :
    fbCount (scan_directory env sid fs root recursive db logs0).logs ≤
      fbCount logs0 + 1 :=
  scan_directory_fb env sid fs root recursive db logs0

/-- C6 counterexample: NODE_MODULES is an excluded directory name per the
specification matcher (case-insensitive glob), and the tree holds N = 1
supported file outside it and M = 1 inside it; yet the scan processes 2
files, records the file under NODE_MODULES, and creates a DirectoryRecord
for the excluded directory — because the walk tests exclusion with the
case-sensitive `is_excluded_dir` while only the pre-count uses the
case-insensitive `_should_exclude_directory`. -/
theorem C6_counterexample :
    spec_is_excluded "NODE_MODULES" = true ∧
    ¬ ((scan_directory envOK "s1" (some tNodeModules) ["data"] true emptyDB
          []).count = 1 ∧
       ["data", "NODE_MODULES"] ∉
         (scan_directory envOK "s1" (some tNodeModules) ["data"] true emptyDB
           []).db.dirs.map (fun r => r.dirpath)) := by
  decide

/-- C6 amended: read with the exclusion matcher the walk actually applies
(`is_excluded_dir`, case-sensitive, no hidden rule) and granted a positive
pre-count, a failure-free scan from the empty database processes exactly
the supported files outside walker-excluded subtrees (specFilesT), and
every recorded path is well placed: each file row lies under the root
through walker-non-excluded directory components only, and each directory
row is the root or a nonempty chain of walker-non-excluded components —
so nothing under a walker-excluded subtree is ever counted or recorded.
The pre-count caveat is needed because `_count_total_files` prunes with
the different matcher `_should_exclude_directory`: a tree whose supported
files all hide from the counter yields total 0 and an early return. -/
theorem C6_excluded_subtree_skipped (env : Env) (sid : String) (t : FSTree)
    (root : FsPath) (logs0 : List LogEvent) (h : env.noFail)
    (h0 : 0 < countTotalFilesT t) :
    (scan_directory env sid (some t) root true emptyDB logs0).count =
      (specFilesT t root).length ∧
    (∀ r ∈ (scan_directory env sid (some t) root true emptyDB logs0).db.files,
      filePathOk root r.filepath) ∧
    (∀ r ∈ (scan_directory env sid (some t) root true emptyDB logs0).db.dirs,
      dirPathOk root r.dirpath) := by
  obtain ⟨hf, hd⟩ := scan_directory_recordsOk env sid t root logs0 h0
  exact ⟨scan_directory_count env sid t root emptyDB logs0 h h0, hf, hd⟩

/-- C6 witness: the amended theorem evaluated on the concrete tree whose
subtree 3StarQ70 the walker excludes — the scan processes exactly the one
file outside it. -/
theorem C6_excluded_subtree_skipped_witness :
    (scan_directory envOK "s1" (some tStarQ) ["data"] true emptyDB
      []).count = (specFilesT tStarQ ["data"]).length ∧
    (specFilesT tStarQ ["data"]).length = 1 :=
  ⟨(C6_excluded_subtree_skipped envOK "s1" tStarQ ["data"] [] envOK_noFail
    (by decide)).1, by decide⟩

/-- C7: with a positive pre-count, the reconcile-call trace of a scan
starts with the root reconciled with parent none, and every reconcile call
for a non-root directory carries its immediate parent as the parent
argument and happens only after a reconcile call (successful or not) was
already made for that parent. -/
theorem C7_parent_reconciled_first (env : Env) (sid : String) (t : FSTree)
    (root : FsPath) (db : DB) (logs0 : List LogEvent)
    (h0 : 0 < countTotalFilesT t) :
    CallsOk root (scan_directory env sid (some t) root true db logs0).calls ∧
    (scan_directory env sid (some t) root true db logs0).calls.head? =
      some (root, none) :=
  scan_directory_callsOk env sid t root db logs0 h0

/-- C7 witness: the ordering theorem evaluated on a concrete two-level
tree. -/
theorem C7_parent_reconciled_first_witness :
    CallsOk ["data"]
      (scan_directory envOK "s1" (some tTest) ["data"] true emptyDB
        []).calls ∧
    (scan_directory envOK "s1" (some tTest) ["data"] true emptyDB
      []).calls.head? = some (["data"], none) :=
  C7_parent_reconciled_first envOK "s1" tTest ["data"] emptyDB [] (by decide)

/-- In a duplicate-free list, exactly one element is equal to a given
member. -/
theorem countP_beq_of_nodup_mem (p : FsPath) :
    ∀ (spec : List FsPath), spec.Nodup → p ∈ spec →
      spec.countP (fun q => q == p) = 1 := by
  intro spec
  induction spec with
  | nil => intro _ hp; cases hp
  | cons a l ih =>
      intro hn hp
      obtain ⟨hnin, hnl⟩ := List.nodup_cons.mp hn
      rw [List.countP_cons]
      rcases List.mem_cons.mp hp with heq | hmem
      · subst heq
        have hz : l.countP (fun q => q == p) = 0 := by
          rw [List.countP_eq_zero]
          intro b hb hbeq
          exact hnin (by rwa [show b = p from by simpa using hbeq] at hb)
        simp [hz]
      · have hane : (a == p) = false := by
          rw [beq_eq_false_iff_ne]
          intro hap
          exact hnin (by rwa [hap])
        have h1 : l.countP (fun q => q == p) = 1 := ih hnl hmem
        simp [h1, hane]

/-- Counting helper for C4: among the rows a failure-free scan produces for
session `sid`, the rows for path `p` tagged `target` number one when the
session matches and the path is a processed file (paths being distinct),
and zero when the session differs. -/
theorem countP_session_spec (spec : List FsPath) (p : FsPath)
    (sid target : String) (hn : spec.Nodup) (hp : p ∈ spec) :
    (spec.map (fun q => (q, sid))).countP
        (fun pr => pr.1 == p && pr.2 == target) =
      if sid = target then 1 else 0 := by
  rw [List.countP_map]
  by_cases hst : sid = target
  · subst hst
    rw [if_pos rfl]
    rw [List.countP_congr (q := fun q => q == p)
      (by intro a ha; simp [Function.comp])]
    exact countP_beq_of_nodup_mem p spec hn hp
  · rw [if_neg hst]
    rw [List.countP_eq_zero]
    intro a ha
    have hft : (sid == target) = false := beq_eq_false_iff_ne.mpr hst
    simp [Function.comp, hft]

/-- Counting helper for C4, path only: one row per processed path and
session. -/
theorem countP_path_spec (spec : List FsPath) (p : FsPath) (sid : String)
    (hn : spec.Nodup) (hp : p ∈ spec) :
    (spec.map (fun q => (q, sid))).countP (fun pr => pr.1 == p) = 1 := by
  rw [List.countP_map]
  rw [List.countP_congr (q := fun q => q == p)
    (by intro a ha; simp [Function.comp])]
  exact countP_beq_of_nodup_mem p spec hn hp

/-- C4: scanning an identical tree twice (fresh scanner and session each
time, failure-free, positive pre-count, distinct file paths) only ever
inserts — the second scan appends to the file table — and afterwards every
processed file has exactly two rows, one tagged with each session id,
while the directory path column stays duplicate-free across both scans. -/
theorem C4_rescan_appends_files_dedups_dirs (env : Env) (sid1 sid2 : String)
    (t : FSTree) (root : FsPath) (logs0 logs1 : List LogEvent)
    (h : env.noFail) (hs : sid1 ≠ sid2) (h0 : 0 < countTotalFilesT t)
    (hn : (specFilesT t root).Nodup) :
    (∃ l, (scan_directory env sid2 (some t) root true
        (scan_directory env sid1 (some t) root true emptyDB logs0).db
        logs1).db.files =
      l ++ (scan_directory env sid1 (some t) root true emptyDB
        logs0).db.files) ∧
    (∀ p ∈ specFilesT t root,
      (scan_directory env sid2 (some t) root true
          (scan_directory env sid1 (some t) root true emptyDB logs0).db
          logs1).db.files.countP
        (fun r => r.filepath == p && r.scan_session_id == sid1) = 1 ∧
      (scan_directory env sid2 (some t) root true
          (scan_directory env sid1 (some t) root true emptyDB logs0).db
          logs1).db.files.countP
        (fun r => r.filepath == p && r.scan_session_id == sid2) = 1 ∧
      (scan_directory env sid2 (some t) root true
          (scan_directory env sid1 (some t) root true emptyDB logs0).db
          logs1).db.files.countP (fun r => r.filepath == p) = 2) ∧
    ((scan_directory env sid2 (some t) root true
        (scan_directory env sid1 (some t) root true emptyDB logs0).db
        logs1).db.dirs.map (fun r => r.dirpath)).Nodup := by
  obtain ⟨l1, hl1, hp1⟩ :=
    scan_directory_files env sid1 t root emptyDB logs0 h h0
  obtain ⟨l2, hl2, hp2⟩ := scan_directory_files env sid2 t root
    (scan_directory env sid1 (some t) root true emptyDB logs0).db logs1 h h0
  have hl1e : (scan_directory env sid1 (some t) root true emptyDB
      logs0).db.files = l1 := by
    rw [hl1]
    simp [emptyDB]
  have hfiles2 : (scan_directory env sid2 (some t) root true
      (scan_directory env sid1 (some t) root true emptyDB logs0).db
      logs1).db.files = l2 ++ l1 := by
    rw [hl2, hl1e]
  refine ⟨⟨l2, hl2⟩, ?_, ?_⟩
  · intro p hp
    have key : ∀ pr : FsPath × String → Bool,
        (scan_directory env sid2 (some t) root true
          (scan_directory env sid1 (some t) root true emptyDB logs0).db
          logs1).db.files.countP
            (fun r => pr (r.filepath, r.scan_session_id)) =
          ((specFilesT t root).map (fun q => (q, sid2))).countP pr +
            ((specFilesT t root).map (fun q => (q, sid1))).countP pr := by
      intro pr
      rw [hfiles2, List.countP_append]
      have e2 : l2.countP (fun r => pr (r.filepath, r.scan_session_id)) =
          ((specFilesT t root).map (fun q => (q, sid2))).countP pr := by
        have := List.countP_map pr
          (fun r : FileRecord => (r.filepath, r.scan_session_id)) l2
        rw [show (fun r : FileRecord => pr (r.filepath, r.scan_session_id)) =
            pr ∘ (fun r : FileRecord => (r.filepath, r.scan_session_id))
          from rfl, ← this, hp2, List.countP_reverse]
      have e1 : l1.countP (fun r => pr (r.filepath, r.scan_session_id)) =
          ((specFilesT t root).map (fun q => (q, sid1))).countP pr := by
        have := List.countP_map pr
          (fun r : FileRecord => (r.filepath, r.scan_session_id)) l1
        rw [show (fun r : FileRecord => pr (r.filepath, r.scan_session_id)) =
            pr ∘ (fun r : FileRecord => (r.filepath, r.scan_session_id))
          from rfl, ← this, hp1, List.countP_reverse]
      rw [e1, e2]
    refine ⟨?_, ?_, ?_⟩
    · rw [key (fun pr => pr.1 == p && pr.2 == sid1)]
      rw [countP_session_spec _ p sid2 sid1 hn hp,
        countP_session_spec _ p sid1 sid1 hn hp]
      simp [Ne.symm hs]
    · rw [key (fun pr => pr.1 == p && pr.2 == sid2)]
      rw [countP_session_spec _ p sid2 sid2 hn hp,
        countP_session_spec _ p sid1 sid2 hn hp]
      simp [hs]
    · rw [key (fun pr => pr.1 == p)]
      rw [countP_path_spec _ p sid2 hn hp, countP_path_spec _ p sid1 hn hp]
  · apply scan_directory_nodup env sid2 t root _ logs1 h0
    apply scan_directory_nodup env sid1 t root emptyDB logs0 h0
    simp [emptyDB]

/-- C4 witness: the rescan theorem evaluated on the concrete test tree for
the file test.jpg at the root. -/
theorem C4_rescan_appends_files_dedups_dirs_witness :
    (scan_directory envOK "s2" (some tTest) ["data"] true
        (scan_directory envOK "s1" (some tTest) ["data"] true emptyDB
          []).db []).db.files.countP
      (fun r => r.filepath == ["data", "test.jpg"] &&
        r.scan_session_id == "s1") = 1 ∧
    (scan_directory envOK "s2" (some tTest) ["data"] true
        (scan_directory envOK "s1" (some tTest) ["data"] true emptyDB
          []).db []).db.files.countP
      (fun r => r.filepath == ["data", "test.jpg"] &&
        r.scan_session_id == "s2") = 1 ∧
    (scan_directory envOK "s2" (some tTest) ["data"] true
        (scan_directory envOK "s1" (some tTest) ["data"] true emptyDB
          []).db []).db.files.countP
      (fun r => r.filepath == ["data", "test.jpg"]) = 2 :=
  (C4_rescan_appends_files_dedups_dirs envOK "s1" "s2" tTest ["data"] [] []
    envOK_noFail (by decide) (by decide) (by decide)).2.1
    ["data", "test.jpg"] (by decide)
